import Mathlib

/-!
Verification development for the staff work-schedule generator
(`WorkScheduleGenerator` in `scd3.py`).

The embedding models the assignment and balancing engine over exact
rationals (`ℚ`): Python's floats only ever hold small half-integral
values in this program, and all spec-level reasoning treats them as
reals.  Dates are modelled as a record holding the ISO `YYYY-MM-DD`
string produced by `strftime` (compared lexicographically, exactly as
the source compares them) together with the Python `date.weekday()`
number (0 = Monday).  Python dictionaries that preserve insertion order
are modelled as association lists, and `defaultdict(float)` is modelled
by an association list whose read operation appends a `0` entry when
the key is missing.  Iteration over Python `set`s has no defined order;
every such iteration is parameterised by a function `pick` that turns
the underlying (deterministically ordered) element list into the order
actually consumed, quantified over all permutations.
-/

/-- The three fixed shift types of the domain. -/
inductive ShiftType where
  | morning
  | afternoon1
  | afternoon2
deriving DecidableEq, Repr

/-- The three lab slots of each shift. -/
inductive Lab where
  | lab01
  | lab02
  | lab03
deriving DecidableEq, Repr

/-- An availability time window `(startHour, endHour)`. -/
abbrev Window := ℚ × ℚ

/-- A weekly availability table: weekday number (Mon=2 … Fri=6) to windows,
in insertion order, as the Python dict `staff_schedule['default']`. -/
abbrev WeekTable := List (ℕ × List Window)

/-- The per-staff availability record `self.staff_data[name]`.  Optional keys
`'excluded_dates'` and `'periods'` are modelled with `Option` (`none` =
key absent). -/
structure StaffInfo where
  excluded_dates : Option (List String)
  periods : Option (List ((String × String) × WeekTable))
  default : Option WeekTable
deriving Repr

/-- The staff table `self.staff_data`: a dict from staff name to info,
in insertion order. -/
abbrev StaffData := List (String × StaffInfo)

/-- A calendar date: the ISO string `date.strftime('%Y-%m-%d')` and the
Python weekday number `date.weekday()` (0 = Monday). -/
structure Date where
  iso : String
  weekday : ℕ
deriving DecidableEq, Repr

/-- Shift window boundaries, from `_check_shift_overlap`. -/
def shiftWindow : ShiftType → ℚ × ℚ
  | .morning => (9, 12)
  | .afternoon1 => (27/2, 16)
  | .afternoon2 => (16, 37/2)

/-- Per-shift duration cap used for hour-crediting
(`3 if shift_type == 'morning' else 2.5`). -/
def shiftCap : ShiftType → ℚ
  | .morning => 3
  | _ => 5/2

/-- Length of a shift's fixed window. -/
def shiftDuration (st : ShiftType) : ℚ := (shiftWindow st).2 - (shiftWindow st).1

/-- Model of `_check_shift_overlap`: accumulate the clipped intersections of the
declared windows with the shift window; `canWork` iff the total is
positive. -/
def check_shift_overlap (time_ranges : List Window) (shift_type : ShiftType) : Bool × ℚ :=
  let sw := shiftWindow shift_type
  let total_overlap := time_ranges.foldl
    (fun acc w =>
      let overlap_start := max w.1 sw.1
      let overlap_end := min w.2 sw.2
      if overlap_start < overlap_end then acc + (overlap_end - overlap_start) else acc) 0
  (decide (total_overlap > 0), total_overlap)

/-- Lexicographic string order on the ISO date strings, as Python's `<=`
on `str`. -/
def strLe (a b : String) : Bool := decide (a ≤ b)

/-- The `periods` scan inside `get_staff_availability`: the first period
whose date range covers the ISO date *and* whose table has the weekday is
used; a covering period without the weekday is skipped; if the scan is
exhausted the staff is unavailable. -/
def periodsScan (iso : String) (weekday : ℕ) (st : ShiftType) :
    List ((String × String) × WeekTable) → Bool × ℚ
  | [] => (false, 0)
  | (range, sched) :: rest =>
    if strLe range.1 iso && strLe iso range.2 then
      match sched.lookup weekday with
      | some trs => check_shift_overlap trs st
      | none => periodsScan iso weekday st rest
    else periodsScan iso weekday st rest

/-- Model of `get_staff_availability`: excluded dates dominate, then the period
overrides (the whole `periods` branch returns `(False, 0)` when no period
applies), then the default weekly table. -/
def get_staff_availability (staff_data : StaffData) (staff_name : String)
    (date : Date) (shift_type : ShiftType) : Bool × ℚ :=
  match staff_data.lookup staff_name with
  | none => (false, 0)
  | some staff_info =>
    let weekday := date.weekday + 2
    if (match staff_info.excluded_dates with
        | some ex => ex.contains date.iso
        | none => false) then (false, 0)
    else match staff_info.periods with
    | some ps => periodsScan date.iso weekday shift_type ps
    | none =>
      match staff_info.default with
      | some sched =>
        match sched.lookup weekday with
        | some trs => check_shift_overlap trs shift_type
        | none => (false, 0)
      | none => (false, 0)

/-- The spec's per-window overlap contribution
`max(0, min(end, shiftEnd) - max(start, shiftStart))`. -/
def specContribution (w : Window) (st : ShiftType) : ℚ :=
  max 0 (min w.2 (shiftWindow st).2 - max w.1 (shiftWindow st).1)

/-- Modelled from the spec: the oracle's overlap as the claim states it,
the sum over declared windows of the clipped-intersection lengths. -/
def spec_overlap (time_ranges : List Window) (st : ShiftType) : ℚ :=
  (time_ranges.map (fun w => specContribution w st)).sum

/-- Modelled from the spec: the availability precedence rule exactly as
claim C2 words it — excluded dates dominate; else a covering date-range
override's weekday table is used exclusively; else (in particular when
overrides exist but none covers the date) the default weekly table is
used; a missing weekday entry means unavailable. -/
def spec_availability_claim (staff_data : StaffData) (staff_name : String)
    (date : Date) (shift_type : ShiftType) : Bool × ℚ :=
  match staff_data.lookup staff_name with
  | none => (false, 0)
  | some staff_info =>
    let weekday := date.weekday + 2
    if (match staff_info.excluded_dates with
        | some ex => ex.contains date.iso
        | none => false) then (false, 0)
    else
      match (staff_info.periods.getD []).find?
          (fun p => strLe p.1.1 date.iso && strLe date.iso p.1.2) with
      | some p =>
        match p.2.lookup weekday with
        | some trs => check_shift_overlap trs shift_type
        | none => (false, 0)
      | none =>
        match staff_info.default with
        | some sched =>
          match sched.lookup weekday with
          | some trs => check_shift_overlap trs shift_type
          | none => (false, 0)
        | none => (false, 0)

/-- The amended precedence rule: as C2, except that when the staff has any
date-range overrides the default table is never consulted — the first
override that covers the date and has the weekday is used, otherwise the
staff is unavailable. -/
def spec_availability_amended (staff_data : StaffData) (staff_name : String)
    (date : Date) (shift_type : ShiftType) : Bool × ℚ :=
  match staff_data.lookup staff_name with
  | none => (false, 0)
  | some staff_info =>
    let weekday := date.weekday + 2
    if (match staff_info.excluded_dates with
        | some ex => ex.contains date.iso
        | none => false) then (false, 0)
    else match staff_info.periods with
    | some ps =>
      match ps.find? (fun p => strLe p.1.1 date.iso && strLe date.iso p.1.2
          && (p.2.lookup weekday).isSome) with
      | some p =>
        match p.2.lookup weekday with
        | some trs => check_shift_overlap trs shift_type
        | none => (false, 0)
      | none => (false, 0)
    | none =>
      match staff_info.default with
      | some sched =>
        match sched.lookup weekday with
        | some trs => check_shift_overlap trs shift_type
        | none => (false, 0)
      | none => (false, 0)

/-- The occupants of the three lab slots of one shift; `""` = unfilled,
exactly as the source uses the empty string. -/
structure ShiftAssign where
  lab01 : String
  lab02 : String
  lab03 : String
deriving DecidableEq, Repr

/-- One day's assignment table
`{'morning': {...}, 'afternoon1': {...}, 'afternoon2': {...}}`. -/
structure DayAssign where
  morning : ShiftAssign
  afternoon1 : ShiftAssign
  afternoon2 : ShiftAssign
deriving DecidableEq, Repr

/-- Read one lab slot of one shift. -/
def getA (a : DayAssign) (st : ShiftType) (lab : Lab) : String :=
  match st, lab with
  | .morning, .lab01 => a.morning.lab01
  | .morning, .lab02 => a.morning.lab02
  | .morning, .lab03 => a.morning.lab03
  | .afternoon1, .lab01 => a.afternoon1.lab01
  | .afternoon1, .lab02 => a.afternoon1.lab02
  | .afternoon1, .lab03 => a.afternoon1.lab03
  | .afternoon2, .lab01 => a.afternoon2.lab01
  | .afternoon2, .lab02 => a.afternoon2.lab02
  | .afternoon2, .lab03 => a.afternoon2.lab03

/-- Write one lab slot of one shift. -/
def setA (a : DayAssign) (st : ShiftType) (lab : Lab) (v : String) : DayAssign :=
  match st, lab with
  | .morning, .lab01 => { a with morning.lab01 := v }
  | .morning, .lab02 => { a with morning.lab02 := v }
  | .morning, .lab03 => { a with morning.lab03 := v }
  | .afternoon1, .lab01 => { a with afternoon1.lab01 := v }
  | .afternoon1, .lab02 => { a with afternoon1.lab02 := v }
  | .afternoon1, .lab03 => { a with afternoon1.lab03 := v }
  | .afternoon2, .lab01 => { a with afternoon2.lab01 := v }
  | .afternoon2, .lab02 => { a with afternoon2.lab02 := v }
  | .afternoon2, .lab03 => { a with afternoon2.lab03 := v }

/-- The lab slots in the order the source's dict literals list them. -/
def allLabs : List Lab := [.lab01, .lab02, .lab03]

/-- The shifts in the order the source's lists iterate them. -/
def allShifts : List ShiftType := [.morning, .afternoon1, .afternoon2]

/-- The empty day: every slot `''`. -/
def emptyDay : DayAssign :=
  ⟨⟨"", "", ""⟩, ⟨"", "", ""⟩, ⟨"", "", ""⟩⟩

/-- Model of `[lab for lab, staff in assignments[shift].items() if not staff]` —
dict literal order `lab01, lab02, lab03`. -/
def emptyLabs (a : DayAssign) (st : ShiftType) : List Lab :=
  allLabs.filter (fun lab => getA a st lab == "")

/-- The run ledger `self.staff_work_hours`, a `defaultdict(float)` in
insertion order. -/
abbrev Ledger := List (String × ℚ)

/-- Plain-dict read with default `0`: `work_hours.get(name, 0)` — does not
create an entry. -/
def ledgerGetD : Ledger → String → ℚ
  | [], _ => 0
  | (m, v) :: rest, name => if m = name then v else ledgerGetD rest name

/-- Key membership in the ledger (`name in led`). -/
def ledgerHas : Ledger → String → Bool
  | [], _ => false
  | (m, _) :: rest, name => if m = name then true else ledgerHas rest name

/-- A `defaultdict` read: touching a missing key creates a `0.0` entry at the
end of insertion order. -/
def ledgerTouch (led : Ledger) (name : String) : Ledger :=
  if ledgerHas led name then led else led ++ [(name, 0)]

/-- Model of `led[name] += h` on a `defaultdict(float)`: update in place, or append
the key with value `h`. -/
def ledgerAdd : Ledger → String → ℚ → Ledger
  | [], name, h => [(name, h)]
  | (m, v) :: rest, name, h =>
    if m = name then (m, v + h) :: rest else (m, v) :: ledgerAdd rest name h

/-- Transfer `h` hours from `x` to `y`
(`work_hours[x] -= h; work_hours[y] += h`). -/
def transferHours (led : Ledger) (x y : String) (h : ℚ) : Ledger :=
  ledgerAdd (ledgerAdd led x (-h)) y h

/-- The values column of the ledger (`work_hours.values()`). -/
def ledgerValues (led : Ledger) : List ℚ := led.map Prod.snd

/-- Model of `sum(values) / len(values)` (0 for the empty list, which the source
never divides). -/
def listMean (l : List ℚ) : ℚ := l.sum / l.length

/-- Population variance `sum((h - avg)**2 for h in values) / len(values)`
as `_balance_workload` computes it. -/
def variance (l : List ℚ) : ℚ :=
  (l.map (fun h => (h - listMean l) * (h - listMean l))).sum / l.length

/-- Model of `_get_available_staff`: the staff names (in table order) whose
availability for the shift is `canWork`. -/
def get_available_staff (staff_data : StaffData) (date : Date)
    (shift_type : ShiftType) : List String :=
  (staff_data.map Prod.fst).filter
    (fun staff_name => (get_staff_availability staff_data staff_name date shift_type).1)

/-- State threaded through `_assign_daily_labs`: the day table, the
`assigned_staff` set (as a membership list) and the ledger. -/
structure FillState where
  a : DayAssign
  asg : List String
  led : Ledger
deriving Repr

/-- One greedy tier of `_assign_daily_labs` (also the per-shift loop of
`_fill_remaining_slots`): pair the still-open labs with the tier's
candidates in order; each candidate is written into the same lab of every
shift in `writes`, marked assigned, and credited
`min(overlap, cap)` for each written shift. -/
def runTier (staff_data : StaffData) (date : Date) (writes : List ShiftType) :
    List Lab → List String → FillState → FillState
  | [], _, s => s
  | _, [], s => s
  | lab :: labs, staff :: cands, s =>
    let a := writes.foldl (fun acc st => setA acc st lab staff) s.a
    let credit := writes.foldl
      (fun acc st =>
        acc + min (get_staff_availability staff_data staff date st).2 (shiftCap st)) 0
    runTier staff_data date writes labs cands
      ⟨a, staff :: s.asg, ledgerAdd s.led staff credit⟩

/-- The sorted insertion used to model Python's stable `list.sort(key=...)`. -/
def insertSorted {α : Type} (key : α → ℚ) (x : α) : List α → List α
  | [] => [x]
  | y :: ys => if key x ≤ key y then x :: y :: ys else y :: insertSorted key x ys

/-- Stable sort by a rational key (Python's `list.sort(key=...)`). -/
def sortByKey {α : Type} (key : α → ℚ) : List α → List α
  | [] => []
  | x :: xs => insertSorted key x (sortByKey key xs)

/-- Model of `_fill_remaining_slots`: per shift, list the open labs and the
available-but-unassigned staff, evaluate the sort key
`self.staff_work_hours[x]` on each of them (a `defaultdict` read that
creates missing entries), sort ascending by that key, and fill. -/
def fill_remaining_slots (staff_data : StaffData) (date : Date)
    (morning_av afternoon1_av afternoon2_av : List String) (s : FillState) : FillState :=
  [(ShiftType.morning, morning_av), (ShiftType.afternoon1, afternoon1_av),
   (ShiftType.afternoon2, afternoon2_av)].foldl
    (fun s p =>
      let remaining_labs := emptyLabs s.a p.1
      let unassigned_staff := p.2.filter (fun staff => !(s.asg.contains staff))
      let led := unassigned_staff.foldl ledgerTouch s.led
      let sorted := sortByKey (fun staff => ledgerGetD led staff) unassigned_staff
      runTier staff_data date [p.1] remaining_labs sorted ⟨s.a, s.asg, led⟩) s

/-- Model of `_assign_daily_labs`: the four priority tiers and then the remaining
fill.  `pick` models Python's unordered `set` iteration: each candidate
set's canonical element list is passed through `pick` before being
consumed. -/
def assign_daily_labs (staff_data : StaffData) (pick : List String → List String)
    (date : Date) (led : Ledger) : DayAssign × Ledger :=
  let morning_av := get_available_staff staff_data date .morning
  let afternoon1_av := get_available_staff staff_data date .afternoon1
  let afternoon2_av := get_available_staff staff_data date .afternoon2
  let all_day := morning_av.filter
    (fun s => afternoon1_av.contains s && afternoon2_av.contains s)
  let m_a1 := morning_av.filter (fun s => afternoon1_av.contains s)
  let m_a2 := morning_av.filter (fun s => afternoon2_av.contains s)
  let a1_a2 := afternoon1_av.filter (fun s => afternoon2_av.contains s)
  let s0 : FillState := ⟨emptyDay, [], led⟩
  let c1 := (pick (all_day.filter (fun s => !(s0.asg.contains s)))).take 3
  let s1 := runTier staff_data date [.morning, .afternoon1, .afternoon2] allLabs c1 s0
  let c2 := pick (m_a1.filter (fun s => !(s1.asg.contains s)))
  let s2 := runTier staff_data date [.morning, .afternoon1] (emptyLabs s1.a .morning) c2 s1
  let c3 := pick (m_a2.filter (fun s => !(s2.asg.contains s)))
  let s3 := runTier staff_data date [.morning, .afternoon2] (emptyLabs s2.a .morning) c3 s2
  let c4 := pick (a1_a2.filter (fun s => !(s3.asg.contains s)))
  let s4 := runTier staff_data date [.afternoon1, .afternoon2] (emptyLabs s3.a .afternoon1) c4 s3
  let s5 := fill_remaining_slots staff_data date morning_av afternoon1_av afternoon2_av s4
  (s5.a, s5.led)

/-- Model of `_would_create_conflict`: true when the staff already holds another lab
of the same shift, or already holds other labs on the day none of which is
this lab while one of those preferred labs is still free in this shift. -/
def would_create_conflict (assignments : DayAssign) (staff : String)
    (shift_type : ShiftType) (lab : Lab) : Bool :=
  if allLabs.any (fun other_lab =>
      other_lab != lab && getA assignments shift_type other_lab == staff) then
    true
  else
    let other_shifts := allShifts.filter (fun s => s != shift_type)
    let staff_other_labs := allLabs.filter (fun other_lab =>
      other_shifts.any (fun other_shift => getA assignments other_shift other_lab == staff))
    if !staff_other_labs.isEmpty && !(staff_other_labs.contains lab) then
      staff_other_labs.any (fun preferred_lab => getA assignments shift_type preferred_lab == "")
    else
      false

/-- Model of `_try_maintain_lab_consistency`: walk the three shifts; wherever the old
occupant still holds this lab and the new staff can work the shift without
conflict, migrate the slot and move the shift's cap hours in the ledger. -/
def try_maintain_lab_consistency (staff_data : StaffData) (date : Date) (lab : Lab)
    (new_staff old_staff : String) :
    List ShiftType → DayAssign → Ledger → DayAssign × Ledger
  | [], a, led => (a, led)
  | st :: rest, a, led =>
    if getA a st lab == old_staff then
      if (get_staff_availability staff_data new_staff date st).1 then
        if !(would_create_conflict a new_staff st lab) then
          try_maintain_lab_consistency staff_data date lab new_staff old_staff rest
            (setA a st lab new_staff)
            (transferHours led old_staff new_staff (shiftCap st))
        else try_maintain_lab_consistency staff_data date lab new_staff old_staff rest a led
      else try_maintain_lab_consistency staff_data date lab new_staff old_staff rest a led
    else try_maintain_lab_consistency staff_data date lab new_staff old_staff rest a led

/-- The replacement search of `_reassign_shifts`: scan the underloaded list,
skip candidates who cannot work the shift for at least its cap, keep the
least-hours candidate whose hours also undercut the current occupant's by
more than 1 and who creates no conflict. -/
def findBest (staff_data : StaffData) (date : Date) (shift_type : ShiftType) (lab : Lab)
    (assignments : DayAssign) (current_hours : ℚ) :
    List (String × ℚ) → Option (String × ℚ) → Option (String × ℚ)
  | [], best => best
  | (replacement, rh) :: rest, best =>
    let q := get_staff_availability staff_data replacement date shift_type
    if !q.1 || q.2 < shiftCap shift_type then
      findBest staff_data date shift_type lab assignments current_hours rest best
    else if (match best with | none => true | some b => rh < b.2)
        && rh < current_hours - 1 then
      if !(would_create_conflict assignments replacement shift_type lab) then
        findBest staff_data date shift_type lab assignments current_hours rest (some (replacement, rh))
      else findBest staff_data date shift_type lab assignments current_hours rest best
    else findBest staff_data date shift_type lab assignments current_hours rest best

/-- Mean over every ledger entry, as `_reassign_shifts` computes `avg_hours`
(`sum(work_hours.values()) / len(work_hours)` — zero entries included). -/
def roundAvg (work_hours : Ledger) : ℚ := listMean (ledgerValues work_hours)

/-- The overloaded list of a balancer round: entries with
`hours > avg + 2`, in ledger order. -/
def classifyOver (work_hours : Ledger) (avg : ℚ) : List (String × ℚ) :=
  work_hours.filter (fun p => decide (p.2 > avg + 2))

/-- The underloaded list of a balancer round: entries with
`hours < avg - 2`, in ledger order. -/
def classifyUnder (work_hours : Ledger) (avg : ℚ) : List (String × ℚ) :=
  work_hours.filter (fun p => decide (p.2 < avg - 2))

/-- Modelled from the spec: the round mean claim C7 asserts — over staff
with *nonzero* ledger entries only. -/
def specRoundAvg (work_hours : Ledger) : ℚ :=
  listMean (ledgerValues (work_hours.filter (fun p => p.2 ≠ 0)))

/-- Mutable state of one `_reassign_shifts` round: the round's private
`work_hours` copy, the real ledger `self.staff_work_hours`, the two
classification lists and the `improvements_made` flag. -/
structure RoundState where
  work : Ledger
  led : Ledger
  under : List (String × ℚ)
  over : List (String × ℚ)
  improved : Bool
deriving Repr

/-- The body of the innermost loop of `_reassign_shifts`, for one
`(shift, lab)` slot of one day. -/
def labStep (staff_data : StaffData) (date : Date) (avg : ℚ) (st : ShiftType)
    (lab : Lab) (a : DayAssign) (rs : RoundState) : DayAssign × RoundState :=
  let current_staff := getA a st lab
  if current_staff == "" then (a, rs)
  else
    let current_staff_hours := ledgerGetD rs.work current_staff
    if current_staff_hours ≤ avg + 1 then (a, rs)
    else
      match findBest staff_data date st lab a current_staff_hours rs.under none with
      | none => (a, rs)
      | some best =>
        let shift_hours := shiftCap st
        let a1 := setA a st lab best.1
        let work := transferHours rs.work current_staff best.1 shift_hours
        let led := transferHours rs.led current_staff best.1 shift_hours
        let bh := ledgerGetD work best.1
        let under := rs.under.filter (fun p => p.1 ≠ best.1)
          ++ (if bh < avg - 2 then [(best.1, bh)] else [])
        let over := if ledgerGetD work current_staff < avg + 2 then
            rs.over.filter (fun p => p.1 ≠ current_staff)
          else rs.over
        let m := try_maintain_lab_consistency staff_data date lab best.1 current_staff
          allShifts a1 led
        (m.1, ⟨work, m.2, under, over, true⟩)

/-- The lab loop of `_reassign_shifts` for one shift of one day. -/
def labsFold (staff_data : StaffData) (date : Date) (avg : ℚ) (st : ShiftType) :
    List Lab → DayAssign → RoundState → DayAssign × RoundState
  | [], a, rs => (a, rs)
  | lab :: labs, a, rs =>
    let r := labStep staff_data date avg st lab a rs
    labsFold staff_data date avg st labs r.1 r.2

/-- The shift loop of `_reassign_shifts` for one day. -/
def shiftsFold (staff_data : StaffData) (date : Date) (avg : ℚ) :
    List ShiftType → DayAssign → RoundState → DayAssign × RoundState
  | [], a, rs => (a, rs)
  | st :: sts, a, rs =>
    let r := labsFold staff_data date avg st allLabs a rs
    shiftsFold staff_data date avg sts r.1 r.2

/-- One schedule entry: the date plus the day's assignment table. -/
structure DayEntry where
  date : Date
  assign : DayAssign
deriving Repr

/-- The day loop of `_reassign_shifts` over the whole schedule. -/
def daysFold (staff_data : StaffData) (avg : ℚ) :
    List DayEntry → RoundState → List DayEntry × RoundState
  | [], rs => ([], rs)
  | e :: rest, rs =>
    let r := shiftsFold staff_data e.date avg allShifts e.assign rs
    let r2 := daysFold staff_data avg rest r.2
    (⟨e.date, r.1⟩ :: r2.1, r2.2)

/-- Model of `_reassign_shifts`: classify against the round mean, then scan every
day, shift and lab for overloaded occupants and swap in the best
underloaded replacement; returns the `improvements_made` flag, the updated
schedule and the updated ledger. -/
def reassign_shifts (staff_data : StaffData) (schedule : List DayEntry)
    (work_hours : Ledger) : Bool × List DayEntry × Ledger :=
  if work_hours.isEmpty then (false, schedule, work_hours)
  else
    let avg := roundAvg work_hours
    let overloaded := classifyOver work_hours avg
    let underloaded := classifyUnder work_hours avg
    if overloaded.isEmpty || underloaded.isEmpty then (false, schedule, work_hours)
    else
      let overloaded := sortByKey (fun p => -p.2) overloaded
      let underloaded := sortByKey (fun p => p.2) underloaded
      let r := daysFold staff_data avg schedule
        ⟨work_hours, work_hours, underloaded, overloaded, false⟩
      (r.2.improved, r.1, r.2.led)

/-- The bounded iteration of `_balance_workload` (`max_iterations = 5`,
`improvement_threshold = 0.5`), reading the round's ledger copy for its
emptiness / size guards and stopping on no improvement or on a variance
improvement below the threshold. -/
def balanceLoop (staff_data : StaffData) :
    ℕ → List DayEntry → Ledger → List DayEntry × Ledger
  | 0, schedule, led => (schedule, led)
  | n + 1, schedule, led =>
    if led.isEmpty then (schedule, led)
    else if (ledgerValues led).length ≤ 1 then (schedule, led)
    else
      let variance_before := variance (ledgerValues led)
      let r := reassign_shifts staff_data schedule led
      if !r.1 then (r.2.1, r.2.2)
      else
        let variance_after := variance (ledgerValues r.2.2)
        if variance_before - variance_after < 1/2 then (r.2.1, r.2.2)
        else balanceLoop staff_data n r.2.1 r.2.2

/-- Model of `_balance_workload`. -/
def balance_workload (staff_data : StaffData) (schedule : List DayEntry)
    (led : Ledger) : List DayEntry × Ledger :=
  balanceLoop staff_data 5 schedule led

/-- Model of `_generate_initial_schedule`: one `DayEntry` per weekday of the range,
threading the ledger. -/
def generate_initial_schedule (staff_data : StaffData)
    (pick : List String → List String) :
    List Date → Ledger → List DayEntry × Ledger
  | [], led => ([], led)
  | d :: rest, led =>
    if d.weekday < 5 then
      let r := assign_daily_labs staff_data pick d led
      let r2 := generate_initial_schedule staff_data pick rest r.2
      (⟨d, r.1⟩ :: r2.1, r2.2)
    else generate_initial_schedule staff_data pick rest led

/-- Model of `generate_schedule`: reset the ledger, build the initial schedule over
the date range, then balance.  Reading the staff table from a CSV file and
enumerating the calendar range are the external collaborators; the parsed
table and the day list are taken as inputs. -/
def generate_schedule (staff_data : StaffData) (pick : List String → List String)
    (dates : List Date) : List DayEntry × Ledger :=
  let r := generate_initial_schedule staff_data pick dates []
  balance_workload staff_data r.1 r.2

/-- Python's substring test `pat in s`, via `splitOn`: a (nonempty) pattern
occurs in `s` iff splitting on it yields more than one piece. -/
def containsSub (s pat : String) : Bool := (s.splitOn pat).length != 1

/-- The label table of `parse_staff_availability`: each `;`-separated cell
piece contributes at most one window, by substring match in the source's
`if/elif` order. -/
def shiftOfLabel (shift : String) : Option Window :=
  if containsSub shift "Ca 9h - 12h" then some (9, 12)
  else if containsSub shift "Ca 13h30 - 16h" then some (27/2, 16)
  else if containsSub shift "Ca 16h - 18h30" then some (16, 37/2)
  else none

/-- One weekday cell: split on `;`, strip each piece, map recognised labels
to windows (unrecognised pieces contribute nothing). -/
def cellToRanges (cell : String) : List Window :=
  ((cell.splitOn ";").map String.trim).filterMap shiftOfLabel

/-- The windows the parser can ever produce. -/
def parserWindows : List Window := [(9, 12), (27/2, 16), (16, 37/2)]

/-- Dict insert with Python semantics: overwriting an existing key keeps its
position, a new key is appended. -/
def dictInsert (d : StaffData) (k : String) (v : StaffInfo) : StaffData :=
  if (d.lookup k).isSome then
    d.map (fun p => if p.1 = k then (k, v) else p)
  else d ++ [(k, v)]

/-- The default weekly table built from one row's weekday columns 2–6:
a column whose cell is blank contributes nothing, otherwise its recognised
windows (when any) are recorded under its weekday number, in column order. -/
def parseRowTable (row : List String) : List (ℕ × List Window) :=
  [(2, row.getD 2 ""), (3, row.getD 3 ""), (4, row.getD 4 ""),
   (5, row.getD 5 ""), (6, row.getD 6 "")].foldl
    (fun acc p =>
      if p.2.trim = "" then acc
      else if (cellToRanges p.2).isEmpty then acc
      else acc ++ [(p.1, cellToRanges p.2)]) []

/-- One data row of `parse_staff_availability`: skipped when shorter than 7
fields or when the stripped name is blank; the staff is kept only when the
resulting default table is nonempty. -/
def parseRow (row : List String) : Option (String × StaffInfo) :=
  if row.length < 7 then none
  else if (row.getD 1 "").trim = "" then none
  else if (parseRowTable row).isEmpty then none
  else some ((row.getD 1 "").trim, ⟨none, none, some (parseRowTable row)⟩)

/-- Model of `parse_staff_availability` over the CSV rows (the file-discovery part is
external): the first row is the header consumed by `next(reader)`, the rest
build `self.staff_data` in row order. -/
def parse_staff_availability (rows : List (List String)) : StaffData :=
  (rows.drop 1).foldl
    (fun acc row =>
      match parseRow row with
      | some p => dictInsert acc p.1 p.2
      | none => acc) []

/-- Slot exclusivity of one shift: no staff name occupies two distinct lab
slots (empty slots exempt). -/
def shiftExclusive (sa : DayAssign) (st : ShiftType) : Bool :=
  allLabs.all (fun l1 => allLabs.all (fun l2 =>
    l1 == l2 || getA sa st l1 == "" || getA sa st l1 != getA sa st l2))

/-- Slot exclusivity of a whole day. -/
def dayExclusive (a : DayAssign) : Bool :=
  allShifts.all (fun st => shiftExclusive a st)

/-- Availability faithfulness of a day: every occupied slot's occupant can
work that shift on that date. -/
def dayAvailOk (staff_data : StaffData) (date : Date) (a : DayAssign) : Bool :=
  allShifts.all (fun st => allLabs.all (fun lab =>
    getA a st lab == "" || (get_staff_availability staff_data (getA a st lab) date st).1))

/-- Whether a staff name occupies any slot of any produced day. -/
def occupiesSomewhere (schedule : List DayEntry) (staff : String) : Bool :=
  schedule.any (fun e => allShifts.any (fun st => allLabs.any (fun lab =>
    getA e.assign st lab == staff)))

theorem overlap_foldl_eq (st : ShiftType) (trs : List Window) (acc : ℚ) :
    trs.foldl
      (fun acc w =>
        let overlap_start := max w.1 (shiftWindow st).1
        let overlap_end := min w.2 (shiftWindow st).2
        if overlap_start < overlap_end then acc + (overlap_end - overlap_start) else acc)
      acc = acc + spec_overlap trs st := by
  induction trs generalizing acc with
  | nil => simp [spec_overlap]
  | cons w rest ih =>
    simp only [List.foldl_cons, spec_overlap, List.map_cons, List.sum_cons]
    rw [ih]
    have hc : (if max w.1 (shiftWindow st).1 < min w.2 (shiftWindow st).2 then
        acc + (min w.2 (shiftWindow st).2 - max w.1 (shiftWindow st).1) else acc)
        = acc + specContribution w st := by
      unfold specContribution
      rcases lt_or_ge (max w.1 (shiftWindow st).1) (min w.2 (shiftWindow st).2) with h | h
      · rw [if_pos h]
        have h2 : max 0 (min w.2 (shiftWindow st).2 - max w.1 (shiftWindow st).1)
            = min w.2 (shiftWindow st).2 - max w.1 (shiftWindow st).1 :=
          max_eq_right (by linarith)
        rw [h2]
      · rw [if_neg (not_lt.mpr h)]
        have h2 : max 0 (min w.2 (shiftWindow st).2 - max w.1 (shiftWindow st).1) = 0 :=
          max_eq_left (by linarith)
        rw [h2, add_zero]
    rw [hc, spec_overlap]
    ring

theorem check_shift_overlap_eq (trs : List Window) (st : ShiftType) :
    check_shift_overlap trs st = (decide (spec_overlap trs st > 0), spec_overlap trs st) := by
  unfold check_shift_overlap
  have h := overlap_foldl_eq st trs 0
  simp only [zero_add] at h
  simp only [h]

/-- C3: the oracle's overlap is exactly the sum over declared windows of
`max(0, min(end, shiftEnd) - max(start, shiftStart))`, and `canWork` holds
iff that accumulated overlap is strictly positive. -/
theorem C3_overlap_oracle (trs : List Window) (st : ShiftType) :
    check_shift_overlap trs st = (decide (spec_overlap trs st > 0), spec_overlap trs st) :=
  check_shift_overlap_eq trs st

theorem periodsScan_eq_find (iso : String) (wd : ℕ) (st : ShiftType)
    (ps : List ((String × String) × WeekTable)) :
    periodsScan iso wd st ps =
      (match ps.find? (fun p => strLe p.1.1 iso && strLe iso p.1.2
          && (p.2.lookup wd).isSome) with
       | some p =>
         (match p.2.lookup wd with
          | some trs => check_shift_overlap trs st
          | none => (false, 0))
       | none => (false, 0)) := by
  induction ps with
  | nil => simp [periodsScan, List.find?]
  | cons p rest ih =>
    rcases p with ⟨⟨s, e⟩, sched⟩
    by_cases hcov : (strLe s iso && strLe iso e) = true
    · cases hlk : sched.lookup wd with
      | some trs => simp [periodsScan, hcov, hlk]
      | none => simp [periodsScan, hcov, hlk, ih]
    · rw [Bool.not_eq_true] at hcov
      simp [periodsScan, hcov, ih]

/-- C2 (amended): the availability lookup follows the precedence rule with
the amendment that once any date-range overrides exist the default table is
never consulted: excluded dates dominate; else the first override covering
the date and containing the weekday is used exclusively, and if there is
none the staff is unavailable; else the default weekly table applies, a
missing weekday meaning unavailable. -/
theorem C2_availability_precedence (staff_data : StaffData) (staff_name : String)
    (date : Date) (shift_type : ShiftType) :
    get_staff_availability staff_data staff_name date shift_type
      = spec_availability_amended staff_data staff_name date shift_type := by
  unfold get_staff_availability spec_availability_amended
  cases staff_data.lookup staff_name with
  | none => rfl
  | some staff_info =>
    simp only
    by_cases hex : (match staff_info.excluded_dates with
        | some ex => ex.contains date.iso
        | none => false) = true
    · rw [if_pos hex, if_pos hex]
    · rw [if_neg hex, if_neg hex]
      cases staff_info.periods with
      | none => rfl
      | some ps => exact periodsScan_eq_find date.iso (date.weekday + 2) shift_type ps

/-- A staff member with only a default weekly table. -/
def plainStaff (name : String) (tbl : WeekTable) : String × StaffInfo :=
  (name, ⟨none, none, some tbl⟩)

/-- A Monday (2026-03-02 was a Monday; `weekday() = 0`). -/
def dateMon : Date := ⟨"2026-03-02", 0⟩

/-- The three full shift windows, declared for one weekday. -/
def allWin : List Window := [(9, 12), (27/2, 16), (16, 37/2)]

/-- C2 scenario: staff `A` has a date-range override for early January that
does not cover `dateMon`, plus a default Monday-morning window. -/
def sdC2 : StaffData :=
  [("A", ⟨none, some [(("2026-01-01", "2026-01-02"), [(2, [(9, 12)])])],
    some [(2, [(9, 12)])]⟩)]

/-- C2 counterexample: on a date covered by no override, the code returns
unavailable while the claim's precedence rule falls back to the default
table and returns `(True, 3.0)`. -/
theorem C2_counterexample :
    get_staff_availability sdC2 "A" dateMon .morning = (false, 0)
    ∧ spec_availability_claim sdC2 "A" dateMon .morning = (true, 3) := by
  with_unfolding_all decide

/-- C4 scenario: `X` can work Morning and Afternoon2 only, `Y` can work
Afternoon1 and Afternoon2 only. -/
def sdC4 : StaffData :=
  [plainStaff "X" [(2, [(9, 12), (16, 37/2)])],
   plainStaff "Y" [(2, [(27/2, 16), (16, 37/2)])]]

/-- The state after the Tier 2b pass on the C4 scenario (Tiers 1 and 2a are
empty there, so this is the state Tier 3 starts from). -/
def s2bC4 : FillState :=
  runTier sdC4 dateMon [.morning, .afternoon2] allLabs ["X"] ⟨emptyDay, [], []⟩

/-- C4 counterexample: Tier 2b places `X` into `afternoon2/lab01`; the Tier 3
pass, which pairs candidates with the labs still unfilled in *Afternoon1*
only, then overwrites that slot with `Y`.  The full daily run confirms it:
`X` ends up credited 5.5 h (Morning 3 + Afternoon2 2.5) while occupying only
the Morning slot. -/
theorem C4_counterexample :
    getA s2bC4.a .afternoon2 .lab01 = "X"
    ∧ getA (runTier sdC4 dateMon [.afternoon1, .afternoon2]
        (emptyLabs s2bC4.a .afternoon1) ["Y"] s2bC4).a .afternoon2 .lab01 = "Y"
    ∧ (assign_daily_labs sdC4 id dateMon []).1
        = ⟨⟨"X", "", ""⟩, ⟨"Y", "", ""⟩, ⟨"Y", "", ""⟩⟩
    ∧ ledgerGetD (assign_daily_labs sdC4 id dateMon []).2 "X" = 11/2 := by
  with_unfolding_all decide

/-- C5 scenario: two staff who can both work all of Monday. -/
def sdC5 : StaffData := [plainStaff "A" [(2, allWin)], plainStaff "B" [(2, allWin)]]

/-- C5 evidence: with identical input, two legitimate orders of the same
candidate set (the identity order and its reversal — a permutation, exactly
what Python's hash-randomised `set` iteration may produce in another run)
give different schedules, so assignment depends on incidental container
order. -/
theorem C5_order_dependence :
    (assign_daily_labs sdC5 id dateMon []).1.morning.lab01 = "A"
    ∧ (assign_daily_labs sdC5 List.reverse dateMon []).1.morning.lab01 = "B"
    ∧ List.Perm (List.reverse ["A", "B"]) ["A", "B"] := by
  refine ⟨by with_unfolding_all decide, by with_unfolding_all decide, by decide⟩

/-- C6 scenario: `X` holds `lab01` in all three shifts of the one scheduled
day; the ledger reads `X ↦ 10, Y ↦ 5`. -/
def sdC6 : StaffData := [plainStaff "X" [(2, allWin)], plainStaff "Y" [(2, allWin)]]

/-- The C6 day: `X` in `lab01` of every shift. -/
def dayC6 : DayAssign := ⟨⟨"X", "", ""⟩, ⟨"X", "", ""⟩, ⟨"X", "", ""⟩⟩

/-- The C6 ledger. -/
def ledC6 : Ledger := [("X", 10), ("Y", 5)]

/-- C6 counterexample: a single `_reassign_shifts` round that reports
improvement raises the ledger variance from 25/4 to 121/4 — the swap
transfers 3 h and the continuity propagation transfers another 5 h, far
overshooting the 5 h gap between the two staff. -/
theorem C6_counterexample :
    (reassign_shifts sdC6 [⟨dateMon, dayC6⟩] ledC6).1 = true
    ∧ variance (ledgerValues ledC6) = 25/4
    ∧ variance (ledgerValues (reassign_shifts sdC6 [⟨dateMon, dayC6⟩] ledC6).2.2) = 121/4
    ∧ (25 : ℚ)/4 < 121/4 := by
  with_unfolding_all decide

/-- C7 scenario ledger: one zero entry, one entry of 10 hours. -/
def wC7 : Ledger := [("X", 0), ("Y", 10)]

/-- C7 counterexample: the round mean is taken over *all* ledger entries —
the zero entry drags it from 10 (the claim's nonzero-only mean) down to 5,
and the overloaded classification differs accordingly. -/
theorem C7_counterexample :
    roundAvg wC7 = 5 ∧ specRoundAvg wC7 = 10
    ∧ classifyOver wC7 (roundAvg wC7) = [("Y", 10)]
    ∧ classifyOver wC7 (specRoundAvg wC7) = [] := by
  with_unfolding_all decide

/-- C9 scenario rows (header plus one data row): the Monday cell repeats the
same shift label twice. -/
def rowsC9 : List (List String) :=
  [["h0", "h1", "h2", "h3", "h4", "h5", "h6"],
   ["1", "NameA", "Ca 9h - 12h;Ca 9h - 12h", "", "", "", ""]]

/-- C9 counterexample: a duplicated label inside one cell produces a table
on which the oracle's Monday-morning overlap is 6 — neither 0 nor the
shift's full 3 h duration — and `min(overlap, cap)` is 3 ≠ overlap. -/
theorem C9_counterexample :
    (get_staff_availability (parse_staff_availability rowsC9) "NameA" dateMon .morning).2 = 6
    ∧ shiftDuration .morning = 3
    ∧ min (6 : ℚ) (shiftCap .morning) ≠ 6 := by
  with_unfolding_all decide

/-- C10 scenario: four staff who can all work every Monday shift; only three
fit into the lab slots. -/
def sdC10 : StaffData :=
  [plainStaff "A" [(2, allWin)], plainStaff "B" [(2, allWin)],
   plainStaff "C" [(2, allWin)], plainStaff "D" [(2, allWin)]]

/-- C10: after generating the one-Monday schedule, the ledger holds a `0.0`
entry for `D` — created by the remaining-slot fill's sort key touching the
`defaultdict` — although `D` occupies no slot anywhere; the zero entry
participates in the balancer's mean, which is 6 (it would be 8 over the
three nonzero entries). -/
theorem C10_ghost_ledger_entry :
    (generate_schedule sdC10 id [dateMon]).2.lookup "D" = some 0
    ∧ occupiesSomewhere (generate_schedule sdC10 id [dateMon]).1 "D" = false
    ∧ roundAvg (generate_schedule sdC10 id [dateMon]).2 = 6 := by
  with_unfolding_all decide

theorem classifyOver_mem (w : Ledger) (avg : ℚ) (p : String × ℚ) :
    p ∈ classifyOver w avg ↔ p ∈ w ∧ p.2 > avg + 2 := by
  simp [classifyOver, List.mem_filter]

theorem classifyUnder_mem (w : Ledger) (avg : ℚ) (p : String × ℚ) :
    p ∈ classifyUnder w avg ↔ p ∈ w ∧ p.2 < avg - 2 := by
  simp [classifyUnder, List.mem_filter]

theorem findBest_nil (staff_data : StaffData) (date : Date) (st : ShiftType)
    (lab : Lab) (a : DayAssign) (ch : ℚ) (acc : Option (String × ℚ)) :
    findBest staff_data date st lab a ch [] acc = acc := rfl

theorem findBest_cons (staff_data : StaffData) (date : Date) (st : ShiftType)
    (lab : Lab) (a : DayAssign) (ch : ℚ) (repl : String) (rh : ℚ)
    (rest : List (String × ℚ)) (acc : Option (String × ℚ)) :
    findBest staff_data date st lab a ch ((repl, rh) :: rest) acc =
      (let q := get_staff_availability staff_data repl date st
       if !q.1 || q.2 < shiftCap st then
         findBest staff_data date st lab a ch rest acc
       else if (match acc with | none => true | some b => rh < b.2) && rh < ch - 1 then
         if !(would_create_conflict a repl st lab) then
           findBest staff_data date st lab a ch rest (some (repl, rh))
         else findBest staff_data date st lab a ch rest acc
       else findBest staff_data date st lab a ch rest acc) := rfl

theorem findBest_sound (staff_data : StaffData) (date : Date) (st : ShiftType)
    (lab : Lab) (a : DayAssign) (ch : ℚ) :
    ∀ (under : List (String × ℚ)) (acc : Option (String × ℚ)) (r : String × ℚ),
    (∀ r0 : String × ℚ, acc = some r0 →
      (get_staff_availability staff_data r0.1 date st).1 = true
      ∧ shiftCap st ≤ (get_staff_availability staff_data r0.1 date st).2
      ∧ would_create_conflict a r0.1 st lab = false) →
    findBest staff_data date st lab a ch under acc = some r →
    (get_staff_availability staff_data r.1 date st).1 = true
    ∧ shiftCap st ≤ (get_staff_availability staff_data r.1 date st).2
    ∧ would_create_conflict a r.1 st lab = false := by
  intro under
  induction under with
  | nil =>
    intro acc r hacc hfb
    rw [findBest_nil] at hfb
    exact hacc r hfb
  | cons p rest ih =>
    intro acc r hacc hfb
    rcases p with ⟨repl, rh⟩
    rw [findBest_cons] at hfb
    simp only [] at hfb
    split at hfb
    · exact ih acc r hacc hfb
    · next h1 =>
      rw [Bool.not_eq_true, Bool.or_eq_false_iff] at h1
      have hcan : (get_staff_availability staff_data repl date st).1 = true := by
        simpa using h1.1
      have hcap : shiftCap st ≤ (get_staff_availability staff_data repl date st).2 :=
        not_lt.mp (by simpa using h1.2)
      split at hfb
      · split at hfb
        · next h3 =>
          refine ih _ r ?_ hfb
          rintro r0 hr0
          injection hr0 with hr0
          subst hr0
          exact ⟨hcan, hcap, by simpa using h3⟩
        · exact ih acc r hacc hfb
      · exact ih acc r hacc hfb

/-- C7 (amended): the balancer round classifies against the mean over all
ledger entries (zero entries included): a staff entry is overloaded exactly
when its hours exceed `avg + 2` and underloaded exactly when they are below
`avg - 2`; and any replacement the round's search returns can work the
shift with overlap at least the shift's duration cap and creates no
conflict. -/
theorem C7_round_classification (w : Ledger) (avg : ℚ) (p : String × ℚ)
    (staff_data : StaffData) (date : Date) (st : ShiftType) (lab : Lab)
    (a : DayAssign) (ch : ℚ) (under : List (String × ℚ)) (r : String × ℚ)
    (hfb : findBest staff_data date st lab a ch under none = some r) :
    (p ∈ classifyOver w avg ↔ p ∈ w ∧ p.2 > avg + 2)
    ∧ (p ∈ classifyUnder w avg ↔ p ∈ w ∧ p.2 < avg - 2)
    ∧ (get_staff_availability staff_data r.1 date st).1 = true
    ∧ shiftCap st ≤ (get_staff_availability staff_data r.1 date st).2
    ∧ would_create_conflict a r.1 st lab = false := by
  refine ⟨classifyOver_mem w avg p, classifyUnder_mem w avg p, ?_⟩
  exact findBest_sound staff_data date st lab a ch under none r (by rintro r0 ⟨⟩) hfb

/-- C7 witness: the classification equivalences at the C7 ledger and the
search soundness at the C6 swap (`findBest` there returns `("Y", 5)`). -/
theorem C7_witness :
    ((("Y", (10 : ℚ)) ∈ classifyOver wC7 5 ↔ ("Y", (10 : ℚ)) ∈ wC7 ∧ ((("Y", (10 : ℚ)) : String × ℚ).2 > 5 + 2))
    ∧ (((("Y", (10 : ℚ)) : String × ℚ)) ∈ classifyUnder wC7 5 ↔ ("Y", (10 : ℚ)) ∈ wC7 ∧ ((("Y", (10 : ℚ)) : String × ℚ).2 < 5 - 2))
    ∧ (get_staff_availability sdC6 ((("Y", (5 : ℚ)) : String × ℚ)).1 dateMon .morning).1 = true
    ∧ shiftCap .morning ≤ (get_staff_availability sdC6 ((("Y", (5 : ℚ)) : String × ℚ)).1 dateMon .morning).2
    ∧ would_create_conflict dayC6 ((("Y", (5 : ℚ)) : String × ℚ)).1 .morning .lab01 = false) :=
  C7_round_classification wC7 5 ("Y", (10 : ℚ)) sdC6 dateMon .morning .lab01
    dayC6 10 [("Y", 5)] ("Y", 5) (by with_unfolding_all decide)

theorem shiftOfLabel_mem (s : String) (w : Window) (h : shiftOfLabel s = some w) :
    w ∈ parserWindows := by
  unfold shiftOfLabel at h
  split at h
  · injection h with h
    subst h
    simp [parserWindows]
  · split at h
    · injection h with h
      subst h
      simp [parserWindows]
    · split at h
      · injection h with h
        subst h
        simp [parserWindows]
      · exact absurd h (by simp)

theorem cellToRanges_subset (cell : String) (w : Window) (h : w ∈ cellToRanges cell) :
    w ∈ parserWindows := by
  unfold cellToRanges at h
  rcases List.mem_filterMap.mp h with ⟨s, _, hs⟩
  exact shiftOfLabel_mem s w hs

theorem parseRowTable_aux (cells : List (ℕ × String)) (acc : List (ℕ × List Window))
    (hacc : ∀ p ∈ acc, ∀ w ∈ p.2, w ∈ parserWindows) :
    ∀ p ∈ cells.foldl
      (fun acc p =>
        if p.2.trim = "" then acc
        else if (cellToRanges p.2).isEmpty then acc
        else acc ++ [(p.1, cellToRanges p.2)]) acc,
    ∀ w ∈ p.2, w ∈ parserWindows := by
  induction cells generalizing acc with
  | nil => exact hacc
  | cons c rest ih =>
    simp only [List.foldl_cons]
    refine ih _ ?_
    intro p hp w hw
    by_cases h1 : c.2.trim = ""
    · rw [if_pos h1] at hp
      exact hacc p hp w hw
    · rw [if_neg h1] at hp
      by_cases h2 : (cellToRanges c.2).isEmpty
      · rw [if_pos h2] at hp
        exact hacc p hp w hw
      · rw [if_neg h2] at hp
        rcases List.mem_append.mp hp with h | h
        · exact hacc p h w hw
        · have : p = (c.1, cellToRanges c.2) := by simpa using h
          subst this
          exact cellToRanges_subset c.2 w hw

theorem parseRow_windows (row : List String) (name : String) (info : StaffInfo)
    (h : parseRow row = some (name, info)) :
    ∀ tbl, info.default = some tbl → ∀ p ∈ tbl, ∀ w ∈ p.2, w ∈ parserWindows := by
  unfold parseRow at h
  split at h
  · exact absurd h (by simp)
  · split at h
    · exact absurd h (by simp)
    · split at h
      · exact absurd h (by simp)
      · injection h with h
        injection h with h1 h2
        subst h2
        intro tbl htbl
        simp only [] at htbl
        injection htbl with htbl
        subst htbl
        exact parseRowTable_aux _ [] (by simp)

theorem dictInsert_mem (d : StaffData) (k : String) (v : StaffInfo)
    (x : String × StaffInfo) (h : x ∈ dictInsert d k v) : x = (k, v) ∨ x ∈ d := by
  unfold dictInsert at h
  split at h
  · rcases List.mem_map.mp h with ⟨p, hp, he⟩
    by_cases hk : p.1 = k
    · rw [if_pos hk] at he
      exact Or.inl he.symm
    · rw [if_neg hk] at he
      exact Or.inr (he ▸ hp)
  · rcases List.mem_append.mp h with h | h
    · exact Or.inr h
    · exact Or.inl (by simpa using h)

theorem parse_windows_aux (rows : List (List String)) (acc : StaffData)
    (hacc : ∀ p ∈ acc, ∀ tbl, p.2.default = some tbl → ∀ q ∈ tbl, ∀ w ∈ q.2, w ∈ parserWindows) :
    ∀ p ∈ rows.foldl
      (fun acc row =>
        match parseRow row with
        | some p => dictInsert acc p.1 p.2
        | none => acc) acc,
    ∀ tbl, p.2.default = some tbl → ∀ q ∈ tbl, ∀ w ∈ q.2, w ∈ parserWindows := by
  induction rows generalizing acc with
  | nil => exact hacc
  | cons row rest ih =>
    simp only [List.foldl_cons]
    refine ih _ ?_
    intro p hp
    cases hpr : parseRow row with
    | none =>
      rw [hpr] at hp
      exact hacc p hp
    | some pr =>
      rw [hpr] at hp
      rcases dictInsert_mem _ _ _ p hp with he | he
      · subst he
        intro tbl htbl
        exact parseRow_windows row pr.1 pr.2 (by rw [hpr]) tbl htbl
      · exact hacc p he

theorem parse_staff_windows (rows : List (List String)) (name : String)
    (info : StaffInfo) (h : (name, info) ∈ parse_staff_availability rows) :
    ∀ tbl, info.default = some tbl → ∀ q ∈ tbl, ∀ w ∈ q.2, w ∈ parserWindows := by
  unfold parse_staff_availability at h
  exact parse_windows_aux _ [] (by simp) (name, info) h

theorem shiftDuration_eq_cap (st : ShiftType) : shiftDuration st = shiftCap st := by
  cases st <;> with_unfolding_all decide

theorem specContribution_parsed (w : Window) (st : ShiftType) (hw : w ∈ parserWindows) :
    specContribution w st = if w = shiftWindow st then shiftDuration st else 0 := by
  fin_cases hw <;> cases st <;> with_unfolding_all decide

theorem spec_overlap_zero (st : ShiftType) (trs : List Window)
    (hw : ∀ w ∈ trs, w ∈ parserWindows) (hns : shiftWindow st ∉ trs) :
    spec_overlap trs st = 0 := by
  induction trs with
  | nil => simp [spec_overlap]
  | cons w rest ih =>
    have h1 : w ≠ shiftWindow st := fun he => hns (he ▸ List.mem_cons_self _ _)
    rw [spec_overlap, List.map_cons, List.sum_cons, ← spec_overlap,
      ih (fun x hx => hw x (List.mem_cons_of_mem _ hx)) (fun hx => hns (List.mem_cons_of_mem _ hx)),
      specContribution_parsed w st (hw w (List.mem_cons_self _ _)), if_neg h1, add_zero]

theorem spec_overlap_ite (st : ShiftType) (trs : List Window) (hnd : trs.Nodup)
    (hw : ∀ w ∈ trs, w ∈ parserWindows) :
    spec_overlap trs st = if shiftWindow st ∈ trs then shiftDuration st else 0 := by
  induction trs with
  | nil => simp [spec_overlap]
  | cons w rest ih =>
    have hwrest : ∀ x ∈ rest, x ∈ parserWindows :=
      fun x hx => hw x (List.mem_cons_of_mem _ hx)
    rw [spec_overlap, List.map_cons, List.sum_cons, ← spec_overlap,
      specContribution_parsed w st (hw w (List.mem_cons_self _ _))]
    by_cases hws : w = shiftWindow st
    · have hns : shiftWindow st ∉ rest := fun hx => (List.nodup_cons.mp hnd).1 (hws ▸ hx)
      rw [if_pos hws, spec_overlap_zero st rest hwrest hns, add_zero,
        if_pos (hws ▸ List.mem_cons_self w rest)]
    · rw [if_neg hws, ih (List.nodup_cons.mp hnd).2 hwrest, zero_add]
      by_cases hm : shiftWindow st ∈ rest
      · rw [if_pos hm, if_pos (List.mem_cons_of_mem _ hm)]
      · rw [if_neg hm,
          if_neg (fun hc => (List.mem_cons.mp hc).elim (fun he => hws he.symm) hm)]

/-- C9 (amended): every window the CSV parser puts into a default weekly
table is one of the three fixed shift windows; and for any window list
without duplicates drawn from those three windows — in particular a parsed
weekday list without a repeated label — the oracle's overlap is either 0 or
exactly the shift's full duration (which equals its cap), so
`min(overlap, cap) = overlap` there. -/
theorem C9_parser_windows (rows : List (List String)) (name : String)
    (info : StaffInfo) (tbl : WeekTable) (trs : List Window) (st : ShiftType)
    (hmem : (name, info) ∈ parse_staff_availability rows)
    (htbl : info.default = some tbl)
    (hnd : trs.Nodup) (hw : ∀ w ∈ trs, w ∈ parserWindows) :
    (∀ q ∈ tbl, ∀ w ∈ q.2, w ∈ parserWindows)
    ∧ ((check_shift_overlap trs st).2 = 0
        ∨ (check_shift_overlap trs st).2 = shiftDuration st)
    ∧ shiftDuration st = shiftCap st
    ∧ min (check_shift_overlap trs st).2 (shiftCap st) = (check_shift_overlap trs st).2 := by
  have hcap : (0 : ℚ) ≤ shiftCap st := by
    cases st <;> with_unfolding_all decide
  have hover : (check_shift_overlap trs st).2 = 0
      ∨ (check_shift_overlap trs st).2 = shiftDuration st := by
    rw [check_shift_overlap_eq]
    simp only []
    rw [spec_overlap_ite st trs hnd hw]
    by_cases h : shiftWindow st ∈ trs
    · right
      rw [if_pos h]
    · left
      rw [if_neg h]
  refine ⟨parse_staff_windows rows name info hmem tbl htbl, hover, shiftDuration_eq_cap st, ?_⟩
  rcases hover with h | h
  · rw [h]
    exact min_eq_left hcap
  · rw [h, shiftDuration_eq_cap st]
    exact min_eq_left le_rfl

/-- The well-formed C9 witness row set: one staff, Monday morning only. -/
def rowsC9b : List (List String) :=
  [["h0", "h1", "h2", "h3", "h4", "h5", "h6"],
   ["1", "NameB", "Ca 9h - 12h", "", "", "", ""]]

/-- The staff record `rowsC9b` parses to. -/
def infoC9b : StaffInfo := ⟨none, none, some [(2, [(9, 12)])]⟩

theorem rowsC9b_parse : parse_staff_availability rowsC9b = [("NameB", infoC9b)] := by
  with_unfolding_all rfl

/-- C9 witness: a well-formed row (each label once) hits the amended
theorem's conclusions, with the Monday overlap exactly the 3 h Morning
duration. -/
theorem C9_witness :
    (("NameB", infoC9b) ∈ parse_staff_availability rowsC9b)
    ∧ ([((9 : ℚ), (12 : ℚ))] : List Window).Nodup
    ∧ ((∀ q ∈ [((2 : ℕ), [((9 : ℚ), (12 : ℚ))])], ∀ w ∈ q.2, w ∈ parserWindows)
    ∧ ((check_shift_overlap [((9 : ℚ), (12 : ℚ))] .morning).2 = 0
        ∨ (check_shift_overlap [((9 : ℚ), (12 : ℚ))] .morning).2 = shiftDuration .morning)
    ∧ shiftDuration .morning = shiftCap .morning
    ∧ min (check_shift_overlap [((9 : ℚ), (12 : ℚ))] .morning).2 (shiftCap .morning)
        = (check_shift_overlap [((9 : ℚ), (12 : ℚ))] .morning).2) :=
  ⟨by rw [rowsC9b_parse]; exact List.mem_singleton_self _,
   by with_unfolding_all decide,
   C9_parser_windows rowsC9b "NameB" infoC9b [(2, [(9, 12)])] [(9, 12)] .morning
     (by rw [rowsC9b_parse]; exact List.mem_singleton_self _) rfl
     (by with_unfolding_all decide)
     (by with_unfolding_all decide)⟩

/-- Sum of squares of a value list (used to reason about `variance`). -/
def sqSum (l : List ℚ) : ℚ := (l.map (fun v => v * v)).sum

theorem ledgerAdd_sum (led : Ledger) (x : String) (h : ℚ) :
    (ledgerValues (ledgerAdd led x h)).sum = (ledgerValues led).sum + h := by
  induction led with
  | nil => simp [ledgerAdd, ledgerValues]
  | cons p rest ih =>
    rcases p with ⟨m, v⟩
    rw [ledgerAdd]
    by_cases hm : m = x
    · rw [if_pos hm]
      simp only [ledgerValues, List.map_cons, List.sum_cons]
      ring
    · rw [if_neg hm]
      simp only [ledgerValues, List.map_cons, List.sum_cons] at ih ⊢
      rw [ih]
      ring

theorem ledgerAdd_sqSum (led : Ledger) (x : String) (h : ℚ) :
    sqSum (ledgerValues (ledgerAdd led x h))
      = sqSum (ledgerValues led) - ledgerGetD led x * ledgerGetD led x
        + (ledgerGetD led x + h) * (ledgerGetD led x + h) := by
  induction led with
  | nil => simp [ledgerAdd, ledgerValues, sqSum, ledgerGetD]
  | cons p rest ih =>
    rcases p with ⟨m, v⟩
    rw [ledgerAdd]
    by_cases hm : m = x
    · rw [if_pos hm]
      simp only [ledgerValues, sqSum, List.map_cons, List.sum_cons, ledgerGetD, if_pos hm]
      ring
    · rw [if_neg hm]
      simp only [ledgerValues, sqSum, List.map_cons, List.sum_cons, ledgerGetD,
        if_neg hm] at ih ⊢
      rw [ih]
      ring

theorem ledgerAdd_length (led : Ledger) (x : String) (h : ℚ)
    (hx : ledgerHas led x = true) : (ledgerAdd led x h).length = led.length := by
  induction led with
  | nil => simp [ledgerHas] at hx
  | cons p rest ih =>
    rcases p with ⟨m, v⟩
    rw [ledgerAdd]
    by_cases hm : m = x
    · rw [if_pos hm]
      simp
    · rw [if_neg hm]
      rw [ledgerHas, if_neg hm] at hx
      simp [ih hx]

theorem ledgerGetD_add (led : Ledger) (x : String) (h : ℚ) (y : String) :
    ledgerGetD (ledgerAdd led x h) y
      = if y = x then ledgerGetD led x + h else ledgerGetD led y := by
  induction led with
  | nil =>
    by_cases hyx : y = x
    · subst hyx
      simp [ledgerAdd, ledgerGetD]
    · simp [ledgerAdd, ledgerGetD, hyx, show x ≠ y from fun hh => hyx hh.symm]
  | cons p rest ih =>
    rcases p with ⟨m, v⟩
    rw [ledgerAdd]
    by_cases hm : m = x
    · rw [if_pos hm]
      by_cases hym : m = y
      · have hyx : y = x := hym ▸ hm
        simp [ledgerGetD, hym, hyx, hm]
      · have hyx : ¬y = x := fun hh => hym (hm.trans hh.symm)
        simp [ledgerGetD, hym, hyx]
    · rw [if_neg hm]
      by_cases hym : m = y
      · have hyx : ¬y = x := fun hh => hm (hym.trans hh)
        simp [ledgerGetD, hym, hyx]
      · simp [ledgerGetD, hym, hm, ih]

theorem ledgerAdd_has (led : Ledger) (x : String) (h : ℚ) (y : String)
    (hy : ledgerHas led y = true) : ledgerHas (ledgerAdd led x h) y = true := by
  induction led with
  | nil => simp [ledgerHas] at hy
  | cons p rest ih =>
    rcases p with ⟨m, v⟩
    rw [ledgerAdd]
    by_cases hm : m = x
    · rw [if_pos hm]
      rw [ledgerHas] at hy ⊢
      exact hy
    · rw [if_neg hm]
      rw [ledgerHas] at hy ⊢
      by_cases hym : m = y
      · rw [if_pos hym]
      · rw [if_neg hym] at hy ⊢
        exact ih hy

theorem ledgerHas_ne_nil (led : Ledger) (x : String) (hx : ledgerHas led x = true) :
    led ≠ [] := by
  intro he
  subst he
  simp [ledgerHas] at hx

theorem sum_sq_expand (l : List ℚ) (m : ℚ) :
    (l.map (fun v => (v - m) * (v - m))).sum
      = sqSum l - 2 * m * l.sum + l.length * (m * m) := by
  induction l with
  | nil => simp [sqSum]
  | cons a rest ih =>
    simp only [List.map_cons, List.sum_cons, List.length_cons]
    rw [ih]
    simp only [sqSum, List.map_cons, List.sum_cons]
    push_cast
    ring

theorem variance_formula (l : List ℚ) (hl : l ≠ []) :
    variance l = sqSum l / l.length - listMean l * listMean l := by
  have hn0 : l.length ≠ 0 := fun hh => hl (List.length_eq_zero.mp hh)
  have hn : (l.length : ℚ) ≠ 0 := Nat.cast_ne_zero.mpr hn0
  unfold variance listMean
  rw [sum_sq_expand]
  field_simp
  ring

/-- C6 (amended): an individual reassignment transfer of the balancer — the
shift's cap (at most 3 hours) moved from a slot occupant whose hours exceed
the round mean by more than 1 to an underloaded staff whose hours are below
the round mean by more than 2 — never increases the ledger variance.  A
full `_reassign_shifts` round can nevertheless increase the variance (see
the counterexample): continuity propagation moves further cap-hours that
the round's classification map never sees. -/
theorem C6_swap_variance (led : Ledger) (x y : String) (h : ℚ)
    (hx : ledgerHas led x = true) (hy : ledgerHas led y = true) (hxy : x ≠ y)
    (h0 : 0 ≤ h) (h3 : h ≤ 3)
    (hover : ledgerGetD led x > roundAvg led + 1)
    (hunder : ledgerGetD led y < roundAvg led - 2) :
    variance (ledgerValues (transferHours led x y h)) ≤ variance (ledgerValues led) := by
  have hyL1 : ledgerHas (ledgerAdd led x (-h)) y = true := ledgerAdd_has led x (-h) y hy
  have hlen1 : (ledgerAdd led x (-h)).length = led.length := ledgerAdd_length led x (-h) hx
  have hlen2 : (ledgerAdd (ledgerAdd led x (-h)) y h).length = (ledgerAdd led x (-h)).length :=
    ledgerAdd_length _ y h hyL1
  have hvl : ∀ L : Ledger, (ledgerValues L).length = L.length := fun L => List.length_map _ _
  have hsum : (ledgerValues (ledgerAdd (ledgerAdd led x (-h)) y h)).sum
      = (ledgerValues led).sum := by
    rw [ledgerAdd_sum, ledgerAdd_sum]
    ring
  have hgy : ledgerGetD (ledgerAdd led x (-h)) y = ledgerGetD led y := by
    rw [ledgerGetD_add, if_neg (fun hh => hxy hh.symm)]
  have hnel : led ≠ [] := ledgerHas_ne_nil led x hx
  have hne : ledgerValues led ≠ [] := by
    intro he
    exact hnel (List.map_eq_nil_iff.mp he)
  have hne2 : ledgerValues (ledgerAdd (ledgerAdd led x (-h)) y h) ≠ [] := by
    intro he
    have := List.map_eq_nil_iff.mp he
    have hl0 : (ledgerAdd (ledgerAdd led x (-h)) y h).length = 0 := by rw [this]; rfl
    rw [hlen2, hlen1] at hl0
    exact hnel (List.length_eq_zero.mp hl0)
  have hlenq : ((ledgerValues (ledgerAdd (ledgerAdd led x (-h)) y h)).length : ℚ)
      = ((ledgerValues led).length : ℚ) := by
    rw [hvl, hvl, hlen2, hlen1]
  have hmean : listMean (ledgerValues (ledgerAdd (ledgerAdd led x (-h)) y h))
      = listMean (ledgerValues led) := by
    unfold listMean
    rw [hsum, hlenq]
  have hgap : 3 < ledgerGetD led x - ledgerGetD led y := by linarith
  have hmul : h * h ≤ h * (ledgerGetD led x - ledgerGetD led y) :=
    mul_le_mul_of_nonneg_left (h3.trans hgap.le) h0
  have hsqle : sqSum (ledgerValues (ledgerAdd (ledgerAdd led x (-h)) y h))
      ≤ sqSum (ledgerValues led) := by
    rw [ledgerAdd_sqSum, hgy, ledgerAdd_sqSum]
    nlinarith [hmul]
  have hnpos : (0 : ℚ) < ((ledgerValues led).length : ℚ) := by
    have : 0 < (ledgerValues led).length := List.length_pos.mpr hne
    exact_mod_cast this
  simp only [transferHours]
  rw [variance_formula _ hne2, variance_formula _ hne, hmean, hlenq]
  apply sub_le_sub_right
  exact (div_le_div_iff_of_pos_right hnpos).mpr hsqle

/-- C6 witness: the transfer lemma applied at the C6 ledger with the full
3 h morning cap moved from `X` (10 h, mean 7.5) to `Y` (5 h). -/
theorem C6_witness :
    ledgerHas ledC6 "X" = true ∧ ledgerHas ledC6 "Y" = true
    ∧ ledgerGetD ledC6 "X" > roundAvg ledC6 + 1
    ∧ ledgerGetD ledC6 "Y" < roundAvg ledC6 - 2
    ∧ variance (ledgerValues (transferHours ledC6 "X" "Y" 3))
        ≤ variance (ledgerValues ledC6) :=
  ⟨by with_unfolding_all decide, by with_unfolding_all decide,
   by with_unfolding_all decide, by with_unfolding_all decide,
   C6_swap_variance ledC6 "X" "Y" 3 (by with_unfolding_all decide)
     (by with_unfolding_all decide) (by with_unfolding_all decide)
     (by with_unfolding_all decide) (by with_unfolding_all decide)
     (by with_unfolding_all decide) (by with_unfolding_all decide)⟩

theorem contains_false_iff (l : List String) (c : String) :
    l.contains c = false ↔ c ∉ l := by
  rw [← Bool.not_eq_true, not_iff_not]
  exact List.elem_iff

theorem getA_setA (a : DayAssign) (st : ShiftType) (lab : Lab) (v : String)
    (st' : ShiftType) (lab' : Lab) :
    getA (setA a st lab v) st' lab'
      = if st = st' ∧ lab = lab' then v else getA a st' lab' := by
  cases st <;> cases st' <;> cases lab <;> cases lab' <;> simp [getA, setA]

theorem getA_placeFold (writes : List ShiftType) (a : DayAssign) (lab : Lab) (v : String)
    (st' : ShiftType) (lab' : Lab) :
    getA (writes.foldl (fun acc st => setA acc st lab v) a) st' lab'
      = if st' ∈ writes ∧ lab' = lab then v else getA a st' lab' := by
  induction writes generalizing a with
  | nil => simp
  | cons w ws ih =>
    rw [List.foldl_cons, ih]
    by_cases h1 : st' ∈ ws ∧ lab' = lab
    · rw [if_pos h1, if_pos ⟨List.mem_cons_of_mem _ h1.1, h1.2⟩]
    · rw [if_neg h1, getA_setA]
      by_cases h2 : w = st' ∧ lab = lab'
      · rw [if_pos h2, if_pos ⟨h2.1 ▸ List.mem_cons_self w ws, h2.2.symm⟩]
      · rw [if_neg h2, if_neg (fun hc => by
          rcases hc with ⟨hmem, hlb⟩
          rcases List.mem_cons.mp hmem with he | he
          · exact h2 ⟨he.symm, hlb.symm⟩
          · exact h1 ⟨he, hlb⟩)]

theorem emptyLabs_mem (a : DayAssign) (st : ShiftType) (lab : Lab) :
    lab ∈ emptyLabs a st ↔ getA a st lab = "" := by
  unfold emptyLabs
  rw [List.mem_filter]
  constructor
  · intro h
    simpa using h.2
  · intro h
    exact ⟨by cases lab <;> simp [allLabs], by simpa using h⟩

theorem runTier_nil_labs (staff_data : StaffData) (date : Date) (writes : List ShiftType)
    (cands : List String) (s : FillState) :
    runTier staff_data date writes [] cands s = s := by
  cases cands <;> rfl

theorem runTier_nil_cands (staff_data : StaffData) (date : Date) (writes : List ShiftType)
    (labs : List Lab) (s : FillState) :
    runTier staff_data date writes labs [] s = s := by
  cases labs <;> rfl

theorem runTier_cons (staff_data : StaffData) (date : Date) (writes : List ShiftType)
    (lab : Lab) (labs : List Lab) (c : String) (cs : List String) (s : FillState) :
    runTier staff_data date writes (lab :: labs) (c :: cs) s =
      runTier staff_data date writes labs cs
        ⟨writes.foldl (fun acc st => setA acc st lab c) s.a, c :: s.asg,
         ledgerAdd s.led c (writes.foldl (fun acc st =>
           acc + min (get_staff_availability staff_data c date st).2 (shiftCap st)) 0)⟩ := rfl

theorem runTier_footprint (staff_data : StaffData) (date : Date) (writes : List ShiftType) :
    ∀ (labs : List Lab) (cands : List String) (s : FillState) (st : ShiftType) (lab : Lab),
    getA (runTier staff_data date writes labs cands s).a st lab = getA s.a st lab
    ∨ (st ∈ writes ∧ lab ∈ labs
        ∧ getA (runTier staff_data date writes labs cands s).a st lab ∈ cands) := by
  intro labs
  induction labs with
  | nil => intro cands s st lab; rw [runTier_nil_labs]; exact Or.inl rfl
  | cons l ls ih =>
    intro cands s st lab
    cases cands with
    | nil => rw [runTier_nil_cands]; exact Or.inl rfl
    | cons c cs =>
      rw [runTier_cons]
      rcases ih cs ⟨writes.foldl (fun acc st => setA acc st l c) s.a, c :: s.asg,
          ledgerAdd s.led c (writes.foldl (fun acc st =>
            acc + min (get_staff_availability staff_data c date st).2 (shiftCap st)) 0)⟩
          st lab with h | h
      · rw [h]
        simp only [getA_placeFold]
        by_cases hc : st ∈ writes ∧ lab = l
        · rw [if_pos hc]
          exact Or.inr ⟨hc.1, hc.2 ▸ List.mem_cons_self l ls, List.mem_cons_self c cs⟩
        · rw [if_neg hc]
          exact Or.inl rfl
      · exact Or.inr ⟨h.1, List.mem_cons_of_mem _ h.2.1, List.mem_cons_of_mem _ h.2.2⟩

/-- C4 (amended): the Tier 2b pass writes only to lab slots unfilled in both
Morning and Afternoon2 (given the invariant, which holds at that point of
`_assign_daily_labs`, that a lab with an empty Morning slot also has an
empty Afternoon2 slot), so it overwrites nothing; the Tier 3 pass keeps
Morning untouched and fills only Afternoon1-empty labs — so it never
overwrites an Afternoon1 occupant — but it *can* overwrite an Afternoon2
occupant placed by Tier 2b (see the counterexample); both passes only place
staff not already assigned for the day. -/
theorem C4_tier_footprint (staff_data : StaffData) (date : Date) (s : FillState)
    (cands cands2 : List String)
    (h2b : ∀ lab, getA s.a .morning lab = "" → getA s.a .afternoon2 lab = "")
    (hc : ∀ c ∈ cands, s.asg.contains c = false)
    (hc2 : ∀ c ∈ cands2, s.asg.contains c = false) :
    (∀ st lab, getA s.a st lab ≠ "" →
      getA (runTier staff_data date [.morning, .afternoon2]
        (emptyLabs s.a .morning) cands s).a st lab = getA s.a st lab)
    ∧ (∀ lab, getA (runTier staff_data date [.afternoon1, .afternoon2]
        (emptyLabs s.a .afternoon1) cands2 s).a .morning lab = getA s.a .morning lab)
    ∧ (∀ lab, getA s.a .afternoon1 lab ≠ "" →
      getA (runTier staff_data date [.afternoon1, .afternoon2]
        (emptyLabs s.a .afternoon1) cands2 s).a .afternoon1 lab
        = getA s.a .afternoon1 lab)
    ∧ (∀ st lab, getA (runTier staff_data date [.morning, .afternoon2]
          (emptyLabs s.a .morning) cands s).a st lab ≠ getA s.a st lab →
        s.asg.contains (getA (runTier staff_data date [.morning, .afternoon2]
          (emptyLabs s.a .morning) cands s).a st lab) = false)
    ∧ (∀ st lab, getA (runTier staff_data date [.afternoon1, .afternoon2]
          (emptyLabs s.a .afternoon1) cands2 s).a st lab ≠ getA s.a st lab →
        s.asg.contains (getA (runTier staff_data date [.afternoon1, .afternoon2]
          (emptyLabs s.a .afternoon1) cands2 s).a st lab) = false) := by
  refine ⟨?_, ?_, ?_, ?_, ?_⟩
  · intro st lab hne
    rcases runTier_footprint staff_data date [.morning, .afternoon2]
      (emptyLabs s.a .morning) cands s st lab with h | h
    · exact h
    · exfalso
      have hm : getA s.a .morning lab = "" := (emptyLabs_mem s.a .morning lab).mp h.2.1
      rcases List.mem_cons.mp h.1 with he | he
      · exact hne (by rw [he]; exact hm)
      · have he2 : st = ShiftType.afternoon2 := by simpa using he
        exact hne (by rw [he2]; exact h2b lab hm)
  · intro lab
    rcases runTier_footprint staff_data date [.afternoon1, .afternoon2]
      (emptyLabs s.a .afternoon1) cands2 s .morning lab with h | h
    · exact h
    · exact absurd h.1 (by simp)
  · intro lab hne
    rcases runTier_footprint staff_data date [.afternoon1, .afternoon2]
      (emptyLabs s.a .afternoon1) cands2 s .afternoon1 lab with h | h
    · exact h
    · exact absurd ((emptyLabs_mem s.a .afternoon1 lab).mp h.2.1) hne
  · intro st lab hdiff
    rcases runTier_footprint staff_data date [.morning, .afternoon2]
      (emptyLabs s.a .morning) cands s st lab with h | h
    · exact absurd h hdiff
    · exact hc _ h.2.2
  · intro st lab hdiff
    rcases runTier_footprint staff_data date [.afternoon1, .afternoon2]
      (emptyLabs s.a .afternoon1) cands2 s st lab with h | h
    · exact absurd h hdiff
    · exact hc2 _ h.2.2

/-- C4 witness: the amended footprint at the C4 scenario's (empty) starting
state with Tier 2b candidate `X` and Tier 3 candidate `Y`. -/
theorem C4_witness :
    (∀ lab, getA emptyDay .morning lab = "" → getA emptyDay .afternoon2 lab = "")
    ∧ (∀ st lab, getA (runTier sdC4 dateMon [.morning, .afternoon2]
          (emptyLabs emptyDay .morning) ["X"] ⟨emptyDay, [], []⟩).a st lab ≠ getA emptyDay st lab →
        List.contains ([] : List String) (getA (runTier sdC4 dateMon [.morning, .afternoon2]
          (emptyLabs emptyDay .morning) ["X"] ⟨emptyDay, [], []⟩).a st lab) = false) := by
  constructor
  · intro lab h
    cases lab <;> rfl
  · exact (C4_tier_footprint sdC4 dateMon ⟨emptyDay, [], []⟩ ["X"] ["Y"]
      (fun lab h => by cases lab <;> rfl)
      (by intro c hc; rfl) (by intro c hc; rfl)).2.2.2.1

/-- Prop form of per-day slot exclusivity. -/
def ExclusiveDay (a : DayAssign) : Prop :=
  ∀ st l1 l2, l1 ≠ l2 → getA a st l1 ≠ "" → getA a st l1 ≠ getA a st l2

/-- Every nonempty occupant of the day is recorded in `assigned_staff`. -/
def OccIn (a : DayAssign) (asg : List String) : Prop :=
  ∀ st lab, getA a st lab ≠ "" → getA a st lab ∈ asg

/-- Prop form of per-day availability faithfulness. -/
def OccAvail (staff_data : StaffData) (date : Date) (a : DayAssign) : Prop :=
  ∀ st lab, getA a st lab ≠ "" →
    (get_staff_availability staff_data (getA a st lab) date st).1 = true

theorem dayExclusive_iff (a : DayAssign) : dayExclusive a = true ↔ ExclusiveDay a := by
  unfold dayExclusive shiftExclusive ExclusiveDay
  rw [List.all_eq_true]
  constructor
  · intro h st l1 l2 hne h1
    have h2 := h st (by cases st <;> simp [allShifts])
    rw [List.all_eq_true] at h2
    have h3 := h2 l1 (by cases l1 <;> simp [allLabs])
    rw [List.all_eq_true] at h3
    have h4 := h3 l2 (by cases l2 <;> simp [allLabs])
    simp only [Bool.or_eq_true, beq_iff_eq, bne_iff_ne] at h4
    tauto
  · intro h st hst
    rw [List.all_eq_true]
    intro l1 h1
    rw [List.all_eq_true]
    intro l2 h2
    simp only [Bool.or_eq_true, beq_iff_eq, bne_iff_ne]
    by_cases he : l1 = l2
    · exact Or.inl (Or.inl he)
    · by_cases hv : getA a st l1 = ""
      · exact Or.inl (Or.inr hv)
      · exact Or.inr (h st l1 l2 he hv)

theorem dayAvailOk_iff (staff_data : StaffData) (date : Date) (a : DayAssign) :
    dayAvailOk staff_data date a = true ↔ OccAvail staff_data date a := by
  unfold dayAvailOk OccAvail
  rw [List.all_eq_true]
  constructor
  · intro h st lab h1
    have h2 := h st (by cases st <;> simp [allShifts])
    rw [List.all_eq_true] at h2
    have h3 := h2 lab (by cases lab <;> simp [allLabs])
    simp only [Bool.or_eq_true, beq_iff_eq] at h3
    tauto
  · intro h st hst
    rw [List.all_eq_true]
    intro lab h1
    simp only [Bool.or_eq_true, beq_iff_eq]
    by_cases hv : getA a st lab = ""
    · exact Or.inl hv
    · exact Or.inr (h st lab hv)

theorem place_exclusive (writes : List ShiftType) (lab : Lab) (c : String)
    (a : DayAssign) (asg : List String)
    (hE : ExclusiveDay a) (hO : OccIn a asg) (hc : c ∉ asg) :
    ExclusiveDay (writes.foldl (fun acc st => setA acc st lab c) a) := by
  intro st l1 l2 hne h1
  rw [getA_placeFold] at h1 ⊢
  rw [getA_placeFold]
  by_cases c1 : st ∈ writes ∧ l1 = lab
  · rw [if_pos c1] at h1 ⊢
    by_cases c2 : st ∈ writes ∧ l2 = lab
    · exact absurd (c1.2.trans c2.2.symm) hne
    · rw [if_neg c2]
      intro heq
      by_cases hv2 : getA a st l2 = ""
      · exact h1 (heq.trans hv2)
      · exact hc (heq ▸ hO st l2 hv2)
  · rw [if_neg c1] at h1 ⊢
    by_cases c2 : st ∈ writes ∧ l2 = lab
    · rw [if_pos c2]
      intro heq
      exact hc (heq ▸ hO st l1 h1)
    · rw [if_neg c2]
      exact hE st l1 l2 hne h1

theorem place_occin (writes : List ShiftType) (lab : Lab) (c : String)
    (a : DayAssign) (asg : List String) (hO : OccIn a asg) :
    OccIn (writes.foldl (fun acc st => setA acc st lab c) a) (c :: asg) := by
  intro st l h1
  rw [getA_placeFold] at h1 ⊢
  by_cases c1 : st ∈ writes ∧ l = lab
  · rw [if_pos c1]
    exact List.mem_cons_self c asg
  · rw [if_neg c1] at h1 ⊢
    exact List.mem_cons_of_mem _ (hO st l h1)

theorem place_avail (staff_data : StaffData) (date : Date) (writes : List ShiftType)
    (lab : Lab) (c : String) (a : DayAssign)
    (hA : OccAvail staff_data date a)
    (hc : ∀ st ∈ writes, (get_staff_availability staff_data c date st).1 = true) :
    OccAvail staff_data date (writes.foldl (fun acc st => setA acc st lab c) a) := by
  intro st l h1
  rw [getA_placeFold] at h1 ⊢
  by_cases c1 : st ∈ writes ∧ l = lab
  · rw [if_pos c1]
    exact hc st c1.1
  · rw [if_neg c1] at h1 ⊢
    exact hA st l h1

theorem runTier_preserves (staff_data : StaffData) (date : Date) (writes : List ShiftType) :
    ∀ (labs : List Lab) (cands : List String) (s : FillState),
    ExclusiveDay s.a → OccIn s.a s.asg → cands.Nodup → (∀ c ∈ cands, c ∉ s.asg) →
    ExclusiveDay (runTier staff_data date writes labs cands s).a
    ∧ OccIn (runTier staff_data date writes labs cands s).a
        (runTier staff_data date writes labs cands s).asg := by
  intro labs
  induction labs with
  | nil =>
    intro cands s hE hO _ _
    rw [runTier_nil_labs]
    exact ⟨hE, hO⟩
  | cons l ls ih =>
    intro cands s hE hO hnd hdisj
    cases cands with
    | nil =>
      rw [runTier_nil_cands]
      exact ⟨hE, hO⟩
    | cons c cs =>
      rw [runTier_cons]
      apply ih
      · exact place_exclusive writes l c s.a s.asg hE hO
          (hdisj c (List.mem_cons_self c cs))
      · exact place_occin writes l c s.a s.asg hO
      · exact (List.nodup_cons.mp hnd).2
      · intro c' hc'
        intro hmem
        rcases List.mem_cons.mp hmem with he | he
        · exact (List.nodup_cons.mp hnd).1 (he ▸ hc')
        · exact hdisj c' (List.mem_cons_of_mem _ hc') he

theorem runTier_avail (staff_data : StaffData) (date : Date) (writes : List ShiftType) :
    ∀ (labs : List Lab) (cands : List String) (s : FillState),
    OccAvail staff_data date s.a →
    (∀ c ∈ cands, ∀ st ∈ writes, (get_staff_availability staff_data c date st).1 = true) →
    OccAvail staff_data date (runTier staff_data date writes labs cands s).a := by
  intro labs
  induction labs with
  | nil =>
    intro cands s hA _
    rw [runTier_nil_labs]
    exact hA
  | cons l ls ih =>
    intro cands s hA hcav
    cases cands with
    | nil =>
      rw [runTier_nil_cands]
      exact hA
    | cons c cs =>
      rw [runTier_cons]
      apply ih
      · exact place_avail staff_data date writes l c s.a hA
          (hcav c (List.mem_cons_self c cs))
      · intro c' hc'
        exact hcav c' (List.mem_cons_of_mem _ hc')

theorem insertSorted_perm {α : Type} (key : α → ℚ) (x : α) (l : List α) :
    (insertSorted key x l).Perm (x :: l) := by
  induction l with
  | nil => rfl
  | cons y ys ih =>
    rw [insertSorted]
    by_cases h : key x ≤ key y
    · rw [if_pos h]
    · rw [if_neg h]
      exact (List.Perm.cons y ih).trans (List.Perm.swap x y ys)

theorem sortByKey_perm {α : Type} (key : α → ℚ) (l : List α) :
    (sortByKey key l).Perm l := by
  induction l with
  | nil => rfl
  | cons x xs ih =>
    rw [sortByKey]
    exact (insertSorted_perm key x (sortByKey key xs)).trans (List.Perm.cons x ih)

theorem contains_true_mem (l : List String) (c : String) (h : l.contains c = true) :
    c ∈ l := List.elem_iff.mp h

theorem get_available_nodup (staff_data : StaffData) (date : Date) (st : ShiftType)
    (hnd : (staff_data.map Prod.fst).Nodup) :
    (get_available_staff staff_data date st).Nodup :=
  List.Nodup.filter _ hnd

theorem get_available_mem (staff_data : StaffData) (date : Date) (st : ShiftType)
    (c : String) (hm : c ∈ get_available_staff staff_data date st) :
    (get_staff_availability staff_data c date st).1 = true := by
  simpa using (List.mem_filter.mp hm).2

theorem pick_filter_nodup (pick : List String → List String)
    (hpick : ∀ l : List String, (pick l).Perm l) (base asg : List String)
    (hb : base.Nodup) :
    (pick (base.filter (fun s => !(asg.contains s)))).Nodup :=
  (hpick _).symm.nodup (List.Nodup.filter _ hb)

theorem pick_filter_disjoint (pick : List String → List String)
    (hpick : ∀ l : List String, (pick l).Perm l) (base asg : List String) :
    ∀ c ∈ pick (base.filter (fun s => !(asg.contains s))), c ∉ asg := by
  intro c hcm hmem
  have h1 : c ∈ base.filter (fun s => !(asg.contains s)) := (hpick _).mem_iff.mp hcm
  have h2 := (List.mem_filter.mp h1).2
  rw [Bool.not_eq_true'] at h2
  exact (contains_false_iff asg c).mp h2 hmem

theorem pick_filter_subset (pick : List String → List String)
    (hpick : ∀ l : List String, (pick l).Perm l) (base asg : List String) :
    ∀ c ∈ pick (base.filter (fun s => !(asg.contains s))), c ∈ base := by
  intro c hcm
  exact (List.mem_filter.mp ((hpick _).mem_iff.mp hcm)).1

/-- The Tier 1 candidate pool `all_day_staff` of `_assign_daily_labs`. -/
def adl_allday (staff_data : StaffData) (date : Date) : List String :=
  (get_available_staff staff_data date .morning).filter
    (fun s => (get_available_staff staff_data date .afternoon1).contains s
      && (get_available_staff staff_data date .afternoon2).contains s)

/-- The `morning_afternoon1` pool. -/
def adl_ma1 (staff_data : StaffData) (date : Date) : List String :=
  (get_available_staff staff_data date .morning).filter
    (fun s => (get_available_staff staff_data date .afternoon1).contains s)

/-- The `morning_afternoon2` pool. -/
def adl_ma2 (staff_data : StaffData) (date : Date) : List String :=
  (get_available_staff staff_data date .morning).filter
    (fun s => (get_available_staff staff_data date .afternoon2).contains s)

/-- The `afternoon1_afternoon2` pool. -/
def adl_a1a2 (staff_data : StaffData) (date : Date) : List String :=
  (get_available_staff staff_data date .afternoon1).filter
    (fun s => (get_available_staff staff_data date .afternoon2).contains s)

/-- The engine state before Tier 1. -/
def adl_s0 (led : Ledger) : FillState := ⟨emptyDay, [], led⟩

/-- The engine state after Tier 1. -/
def adl_s1 (staff_data : StaffData) (pick : List String → List String)
    (date : Date) (led : Ledger) : FillState :=
  runTier staff_data date [.morning, .afternoon1, .afternoon2] allLabs
    ((pick ((adl_allday staff_data date).filter
      (fun s => !((adl_s0 led).asg.contains s)))).take 3) (adl_s0 led)

/-- The engine state after Tier 2a. -/
def adl_s2 (staff_data : StaffData) (pick : List String → List String)
    (date : Date) (led : Ledger) : FillState :=
  runTier staff_data date [.morning, .afternoon1]
    (emptyLabs (adl_s1 staff_data pick date led).a .morning)
    (pick ((adl_ma1 staff_data date).filter
      (fun s => !((adl_s1 staff_data pick date led).asg.contains s))))
    (adl_s1 staff_data pick date led)

/-- The engine state after Tier 2b. -/
def adl_s3 (staff_data : StaffData) (pick : List String → List String)
    (date : Date) (led : Ledger) : FillState :=
  runTier staff_data date [.morning, .afternoon2]
    (emptyLabs (adl_s2 staff_data pick date led).a .morning)
    (pick ((adl_ma2 staff_data date).filter
      (fun s => !((adl_s2 staff_data pick date led).asg.contains s))))
    (adl_s2 staff_data pick date led)

/-- The engine state after Tier 3. -/
def adl_s4 (staff_data : StaffData) (pick : List String → List String)
    (date : Date) (led : Ledger) : FillState :=
  runTier staff_data date [.afternoon1, .afternoon2]
    (emptyLabs (adl_s3 staff_data pick date led).a .afternoon1)
    (pick ((adl_a1a2 staff_data date).filter
      (fun s => !((adl_s3 staff_data pick date led).asg.contains s))))
    (adl_s3 staff_data pick date led)

/-- The engine state after the remaining-slot fill. -/
def adl_s5 (staff_data : StaffData) (pick : List String → List String)
    (date : Date) (led : Ledger) : FillState :=
  fill_remaining_slots staff_data date
    (get_available_staff staff_data date .morning)
    (get_available_staff staff_data date .afternoon1)
    (get_available_staff staff_data date .afternoon2)
    (adl_s4 staff_data pick date led)

theorem assign_daily_labs_eq (staff_data : StaffData)
    (pick : List String → List String) (date : Date) (led : Ledger) :
    assign_daily_labs staff_data pick date led
      = ((adl_s5 staff_data pick date led).a, (adl_s5 staff_data pick date led).led) := rfl

theorem emptyDay_blank (st : ShiftType) (lab : Lab) : getA emptyDay st lab = "" := by
  cases st <;> cases lab <;> rfl

theorem emptyDay_exclusive : ExclusiveDay emptyDay := by
  intro st l1 l2 _ h1
  exact absurd (emptyDay_blank st l1) h1

theorem emptyDay_occin (asg : List String) : OccIn emptyDay asg := by
  intro st lab h1
  exact absurd (emptyDay_blank st lab) h1

theorem emptyDay_avail (staff_data : StaffData) (date : Date) :
    OccAvail staff_data date emptyDay := by
  intro st lab h1
  exact absurd (emptyDay_blank st lab) h1

theorem fill_fold_preserves (staff_data : StaffData) (date : Date) :
    ∀ (entries : List (ShiftType × List String)) (s : FillState),
    ExclusiveDay s.a → OccIn s.a s.asg → (∀ p ∈ entries, p.2.Nodup) →
    ExclusiveDay (entries.foldl
      (fun s p =>
        let remaining_labs := emptyLabs s.a p.1
        let unassigned_staff := p.2.filter (fun staff => !(s.asg.contains staff))
        let led := unassigned_staff.foldl ledgerTouch s.led
        let sorted := sortByKey (fun staff => ledgerGetD led staff) unassigned_staff
        runTier staff_data date [p.1] remaining_labs sorted ⟨s.a, s.asg, led⟩) s).a
    ∧ OccIn (entries.foldl
      (fun s p =>
        let remaining_labs := emptyLabs s.a p.1
        let unassigned_staff := p.2.filter (fun staff => !(s.asg.contains staff))
        let led := unassigned_staff.foldl ledgerTouch s.led
        let sorted := sortByKey (fun staff => ledgerGetD led staff) unassigned_staff
        runTier staff_data date [p.1] remaining_labs sorted ⟨s.a, s.asg, led⟩) s).a
      (entries.foldl
      (fun s p =>
        let remaining_labs := emptyLabs s.a p.1
        let unassigned_staff := p.2.filter (fun staff => !(s.asg.contains staff))
        let led := unassigned_staff.foldl ledgerTouch s.led
        let sorted := sortByKey (fun staff => ledgerGetD led staff) unassigned_staff
        runTier staff_data date [p.1] remaining_labs sorted ⟨s.a, s.asg, led⟩) s).asg := by
  intro entries
  induction entries with
  | nil =>
    intro s hE hO _
    exact ⟨hE, hO⟩
  | cons e rest ih =>
    intro s hE hO hnd
    rw [List.foldl_cons]
    have hstep := runTier_preserves staff_data date [e.1]
      (emptyLabs s.a e.1)
      (sortByKey (fun staff => ledgerGetD
        ((e.2.filter (fun staff => !(s.asg.contains staff))).foldl ledgerTouch s.led) staff)
        (e.2.filter (fun staff => !(s.asg.contains staff))))
      ⟨s.a, s.asg, (e.2.filter (fun staff => !(s.asg.contains staff))).foldl ledgerTouch s.led⟩
      hE hO
      ((sortByKey_perm _ _).symm.nodup (List.Nodup.filter _ (hnd e (List.mem_cons_self e rest))))
      (by
        intro c hc hmem
        have h1 : c ∈ e.2.filter (fun staff => !(s.asg.contains staff)) :=
          (sortByKey_perm _ _).mem_iff.mp hc
        have h2 := (List.mem_filter.mp h1).2
        rw [Bool.not_eq_true'] at h2
        exact (contains_false_iff s.asg c).mp h2 hmem)
    exact ih _ hstep.1 hstep.2 (fun p hp => hnd p (List.mem_cons_of_mem _ hp))

theorem fill_fold_avail (staff_data : StaffData) (date : Date) :
    ∀ (entries : List (ShiftType × List String)) (s : FillState),
    OccAvail staff_data date s.a →
    (∀ p ∈ entries, ∀ c ∈ p.2,
      (get_staff_availability staff_data c date p.1).1 = true) →
    OccAvail staff_data date (entries.foldl
      (fun s p =>
        let remaining_labs := emptyLabs s.a p.1
        let unassigned_staff := p.2.filter (fun staff => !(s.asg.contains staff))
        let led := unassigned_staff.foldl ledgerTouch s.led
        let sorted := sortByKey (fun staff => ledgerGetD led staff) unassigned_staff
        runTier staff_data date [p.1] remaining_labs sorted ⟨s.a, s.asg, led⟩) s).a := by
  intro entries
  induction entries with
  | nil =>
    intro s hA _
    exact hA
  | cons e rest ih =>
    intro s hA hav
    rw [List.foldl_cons]
    have hstep := runTier_avail staff_data date [e.1]
      (emptyLabs s.a e.1)
      (sortByKey (fun staff => ledgerGetD
        ((e.2.filter (fun staff => !(s.asg.contains staff))).foldl ledgerTouch s.led) staff)
        (e.2.filter (fun staff => !(s.asg.contains staff))))
      ⟨s.a, s.asg, (e.2.filter (fun staff => !(s.asg.contains staff))).foldl ledgerTouch s.led⟩
      hA
      (by
        intro c hc st hst
        have h1 : c ∈ e.2.filter (fun staff => !(s.asg.contains staff)) :=
          (sortByKey_perm _ _).mem_iff.mp hc
        have h2 := (List.mem_filter.mp h1).1
        have hse : st = e.1 := by simpa using hst
        rw [hse]
        exact hav e (List.mem_cons_self e rest) c h2)
    exact ih _ hstep (fun p hp => hav p (List.mem_cons_of_mem _ hp))

theorem adl_s5_invariant (staff_data : StaffData) (pick : List String → List String)
    (date : Date) (led : Ledger)
    (hnd : (staff_data.map Prod.fst).Nodup)
    (hpick : ∀ l : List String, (pick l).Perm l) :
    ExclusiveDay (adl_s5 staff_data pick date led).a
    ∧ OccIn (adl_s5 staff_data pick date led).a (adl_s5 staff_data pick date led).asg := by
  have hmN := get_available_nodup staff_data date .morning hnd
  have ha1N := get_available_nodup staff_data date .afternoon1 hnd
  have ha2N := get_available_nodup staff_data date .afternoon2 hnd
  have h1 : ExclusiveDay (adl_s1 staff_data pick date led).a
      ∧ OccIn (adl_s1 staff_data pick date led).a (adl_s1 staff_data pick date led).asg := by
    unfold adl_s1
    apply runTier_preserves staff_data date _ _ _ _ emptyDay_exclusive (emptyDay_occin [])
    · exact List.Nodup.sublist (List.take_sublist 3 _)
        (pick_filter_nodup pick hpick _ _ (List.Nodup.filter _ hmN))
    · intro c hc
      exact pick_filter_disjoint pick hpick (adl_allday staff_data date) _ c
        (List.take_subset 3 _ hc)
  have h2 : ExclusiveDay (adl_s2 staff_data pick date led).a
      ∧ OccIn (adl_s2 staff_data pick date led).a (adl_s2 staff_data pick date led).asg := by
    unfold adl_s2
    apply runTier_preserves staff_data date _ _ _ _ h1.1 h1.2
    · exact pick_filter_nodup pick hpick _ _ (List.Nodup.filter _ hmN)
    · exact pick_filter_disjoint pick hpick (adl_ma1 staff_data date) _
  have h3 : ExclusiveDay (adl_s3 staff_data pick date led).a
      ∧ OccIn (adl_s3 staff_data pick date led).a (adl_s3 staff_data pick date led).asg := by
    unfold adl_s3
    apply runTier_preserves staff_data date _ _ _ _ h2.1 h2.2
    · exact pick_filter_nodup pick hpick _ _ (List.Nodup.filter _ hmN)
    · exact pick_filter_disjoint pick hpick (adl_ma2 staff_data date) _
  have h4 : ExclusiveDay (adl_s4 staff_data pick date led).a
      ∧ OccIn (adl_s4 staff_data pick date led).a (adl_s4 staff_data pick date led).asg := by
    unfold adl_s4
    apply runTier_preserves staff_data date _ _ _ _ h3.1 h3.2
    · exact pick_filter_nodup pick hpick _ _ (List.Nodup.filter _ ha1N)
    · exact pick_filter_disjoint pick hpick (adl_a1a2 staff_data date) _
  unfold adl_s5 fill_remaining_slots
  exact fill_fold_preserves staff_data date _ _ h4.1 h4.2
    (by
      intro p hp
      rcases List.mem_cons.mp hp with he | hp
      · rw [he]
        exact hmN
      · rcases List.mem_cons.mp hp with he | hp
        · rw [he]
          exact ha1N
        · rcases List.mem_cons.mp hp with he | hp
          · rw [he]
            exact ha2N
          · exact absurd hp (List.not_mem_nil p))

theorem adl_tier_avail (staff_data : StaffData) (date : Date) (stA stB : ShiftType)
    (c : String)
    (hc : c ∈ (get_available_staff staff_data date stA).filter
      (fun s => (get_available_staff staff_data date stB).contains s)) :
    ∀ st ∈ [stA, stB], (get_staff_availability staff_data c date st).1 = true := by
  intro st hst
  have h1 := List.mem_filter.mp hc
  rcases List.mem_cons.mp hst with he | he
  · rw [he]
    exact get_available_mem staff_data date stA c h1.1
  · have he2 : st = stB := by simpa using he
    rw [he2]
    exact get_available_mem staff_data date stB c
      (contains_true_mem _ c h1.2)

theorem adl_s5_avail (staff_data : StaffData) (pick : List String → List String)
    (date : Date) (led : Ledger)
    (hpick : ∀ l : List String, (pick l).Perm l) :
    OccAvail staff_data date (adl_s5 staff_data pick date led).a := by
  have h1 : OccAvail staff_data date (adl_s1 staff_data pick date led).a := by
    unfold adl_s1
    apply runTier_avail staff_data date _ _ _ _ (emptyDay_avail staff_data date)
    intro c hc st hst
    have hmem : c ∈ adl_allday staff_data date :=
      pick_filter_subset pick hpick _ _ c (List.take_subset 3 _ hc)
    have h1 := List.mem_filter.mp hmem
    have h2 := h1.2
    rw [Bool.and_eq_true] at h2
    rcases List.mem_cons.mp hst with he | he
    · rw [he]
      exact get_available_mem staff_data date .morning c h1.1
    · rcases List.mem_cons.mp he with he2 | he2
      · rw [he2]
        exact get_available_mem staff_data date .afternoon1 c
          (contains_true_mem _ c h2.1)
      · have he3 : st = ShiftType.afternoon2 := by simpa using he2
        rw [he3]
        exact get_available_mem staff_data date .afternoon2 c
          (contains_true_mem _ c h2.2)
  have h2 : OccAvail staff_data date (adl_s2 staff_data pick date led).a := by
    unfold adl_s2
    apply runTier_avail staff_data date _ _ _ _ h1
    intro c hc
    exact adl_tier_avail staff_data date .morning .afternoon1 c
      ((hpick _).mem_iff.mp hc |> List.mem_filter.mp |>.1)
  have h3 : OccAvail staff_data date (adl_s3 staff_data pick date led).a := by
    unfold adl_s3
    apply runTier_avail staff_data date _ _ _ _ h2
    intro c hc
    exact adl_tier_avail staff_data date .morning .afternoon2 c
      ((hpick _).mem_iff.mp hc |> List.mem_filter.mp |>.1)
  have h4 : OccAvail staff_data date (adl_s4 staff_data pick date led).a := by
    unfold adl_s4
    apply runTier_avail staff_data date _ _ _ _ h3
    intro c hc
    exact adl_tier_avail staff_data date .afternoon1 .afternoon2 c
      ((hpick _).mem_iff.mp hc |> List.mem_filter.mp |>.1)
  unfold adl_s5 fill_remaining_slots
  apply fill_fold_avail staff_data date _ _ h4
  intro p hp c hcm
  rcases List.mem_cons.mp hp with he | hp
  · rw [he] at hcm ⊢
    exact get_available_mem staff_data date .morning c hcm
  · rcases List.mem_cons.mp hp with he | hp
    · rw [he] at hcm ⊢
      exact get_available_mem staff_data date .afternoon1 c hcm
    · rcases List.mem_cons.mp hp with he | hp
      · rw [he] at hcm ⊢
        exact get_available_mem staff_data date .afternoon2 c hcm
      · exact absurd hp (List.not_mem_nil p)

theorem conflict_false_same_shift (a : DayAssign) (c : String) (st : ShiftType) (lab : Lab)
    (hcf : would_create_conflict a c st lab = false) :
    ∀ ol, ol ≠ lab → getA a st ol ≠ c := by
  unfold would_create_conflict at hcf
  split at hcf
  · exact absurd hcf (by simp)
  · next hany =>
    intro ol hne heq
    exact hany (List.any_eq_true.mpr
      ⟨ol, by cases ol <;> simp [allLabs], by simp [hne, heq, bne_iff_ne]⟩)

theorem setA_conflict_exclusive (a : DayAssign) (c : String) (st : ShiftType) (lab : Lab)
    (hE : ExclusiveDay a) (hcf : would_create_conflict a c st lab = false) :
    ExclusiveDay (setA a st lab c) := by
  have hother := conflict_false_same_shift a c st lab hcf
  intro st' l1 l2 hne h1
  rw [getA_setA] at h1 ⊢
  rw [getA_setA]
  by_cases c1 : st = st' ∧ lab = l1
  · rw [if_pos c1] at h1 ⊢
    by_cases c2 : st = st' ∧ lab = l2
    · exact absurd (c1.2.symm.trans c2.2) hne
    · rw [if_neg c2]
      intro heq
      have hl2 : l2 ≠ lab := fun hh => c2 ⟨c1.1, hh.symm⟩
      exact hother l2 hl2 (by rw [c1.1]; exact heq.symm)
  · rw [if_neg c1] at h1 ⊢
    by_cases c2 : st = st' ∧ lab = l2
    · rw [if_pos c2]
      intro heq
      have hl1 : l1 ≠ lab := fun hh => c1 ⟨c2.1, hh.symm⟩
      exact hother l1 hl1 (by rw [c2.1]; exact heq)
    · rw [if_neg c2]
      exact hE st' l1 l2 hne h1

theorem setA_avail (staff_data : StaffData) (date : Date) (a : DayAssign) (c : String)
    (st : ShiftType) (lab : Lab)
    (hA : OccAvail staff_data date a)
    (hc : (get_staff_availability staff_data c date st).1 = true) :
    OccAvail staff_data date (setA a st lab c) := by
  intro st' l h1
  rw [getA_setA] at h1 ⊢
  by_cases c1 : st = st' ∧ lab = l
  · rw [if_pos c1] at h1 ⊢
    rw [← c1.1]
    exact hc
  · rw [if_neg c1] at h1 ⊢
    exact hA st' l h1

theorem tmFold_exclusive (staff_data : StaffData) (date : Date) (lab : Lab)
    (new_staff old_staff : String) :
    ∀ (sts : List ShiftType) (a : DayAssign) (led : Ledger),
    ExclusiveDay a →
    ExclusiveDay (try_maintain_lab_consistency staff_data date lab
      new_staff old_staff sts a led).1 := by
  intro sts
  induction sts with
  | nil =>
    intro a led hE
    exact hE
  | cons st rest ih =>
    intro a led hE
    rw [try_maintain_lab_consistency]
    split
    · split
      · split
        · next hconf =>
          exact ih _ _ (setA_conflict_exclusive a new_staff st lab hE (by simpa using hconf))
        · exact ih _ _ hE
      · exact ih _ _ hE
    · exact ih _ _ hE

theorem tmFold_avail (staff_data : StaffData) (date : Date) (lab : Lab)
    (new_staff old_staff : String) :
    ∀ (sts : List ShiftType) (a : DayAssign) (led : Ledger),
    OccAvail staff_data date a →
    OccAvail staff_data date (try_maintain_lab_consistency staff_data date lab
      new_staff old_staff sts a led).1 := by
  intro sts
  induction sts with
  | nil =>
    intro a led hA
    exact hA
  | cons st rest ih =>
    intro a led hA
    rw [try_maintain_lab_consistency]
    split
    · split
      · next hcan =>
        split
        · exact ih _ _ (setA_avail staff_data date a new_staff st lab hA hcan)
        · exact ih _ _ hA
      · exact ih _ _ hA
    · exact ih _ _ hA

theorem labStep_exclusive (staff_data : StaffData) (date : Date) (avg : ℚ)
    (st : ShiftType) (lab : Lab) (a : DayAssign) (rs : RoundState)
    (hE : ExclusiveDay a) :
    ExclusiveDay (labStep staff_data date avg st lab a rs).1 := by
  unfold labStep
  dsimp only
  split
  · exact hE
  · split
    · exact hE
    · split
      · exact hE
      · next best heq =>
        have hgood := findBest_sound staff_data date st lab a
          (ledgerGetD rs.work (getA a st lab)) rs.under none best
          (by rintro r0 ⟨⟩) heq
        exact tmFold_exclusive staff_data date lab best.1 (getA a st lab) allShifts
          (setA a st lab best.1) _
          (setA_conflict_exclusive a best.1 st lab hE hgood.2.2)

theorem labStep_avail (staff_data : StaffData) (date : Date) (avg : ℚ)
    (st : ShiftType) (lab : Lab) (a : DayAssign) (rs : RoundState)
    (hA : OccAvail staff_data date a) :
    OccAvail staff_data date (labStep staff_data date avg st lab a rs).1 := by
  unfold labStep
  dsimp only
  split
  · exact hA
  · split
    · exact hA
    · split
      · exact hA
      · next best heq =>
        have hgood := findBest_sound staff_data date st lab a
          (ledgerGetD rs.work (getA a st lab)) rs.under none best
          (by rintro r0 ⟨⟩) heq
        exact tmFold_avail staff_data date lab best.1 (getA a st lab) allShifts
          (setA a st lab best.1) _
          (setA_avail staff_data date a best.1 st lab hA hgood.1)

theorem labsFold_exclusive (staff_data : StaffData) (date : Date) (avg : ℚ)
    (st : ShiftType) :
    ∀ (labs : List Lab) (a : DayAssign) (rs : RoundState), ExclusiveDay a →
    ExclusiveDay (labsFold staff_data date avg st labs a rs).1 := by
  intro labs
  induction labs with
  | nil =>
    intro a rs hE
    exact hE
  | cons lab labs ih =>
    intro a rs hE
    rw [labsFold]
    exact ih _ _ (labStep_exclusive staff_data date avg st lab a rs hE)

theorem labsFold_avail (staff_data : StaffData) (date : Date) (avg : ℚ)
    (st : ShiftType) :
    ∀ (labs : List Lab) (a : DayAssign) (rs : RoundState), OccAvail staff_data date a →
    OccAvail staff_data date (labsFold staff_data date avg st labs a rs).1 := by
  intro labs
  induction labs with
  | nil =>
    intro a rs hA
    exact hA
  | cons lab labs ih =>
    intro a rs hA
    rw [labsFold]
    exact ih _ _ (labStep_avail staff_data date avg st lab a rs hA)

theorem shiftsFold_exclusive (staff_data : StaffData) (date : Date) (avg : ℚ) :
    ∀ (sts : List ShiftType) (a : DayAssign) (rs : RoundState), ExclusiveDay a →
    ExclusiveDay (shiftsFold staff_data date avg sts a rs).1 := by
  intro sts
  induction sts with
  | nil =>
    intro a rs hE
    exact hE
  | cons st sts ih =>
    intro a rs hE
    rw [shiftsFold]
    exact ih _ _ (labsFold_exclusive staff_data date avg st allLabs a rs hE)

theorem shiftsFold_avail (staff_data : StaffData) (date : Date) (avg : ℚ) :
    ∀ (sts : List ShiftType) (a : DayAssign) (rs : RoundState), OccAvail staff_data date a →
    OccAvail staff_data date (shiftsFold staff_data date avg sts a rs).1 := by
  intro sts
  induction sts with
  | nil =>
    intro a rs hA
    exact hA
  | cons st sts ih =>
    intro a rs hA
    rw [shiftsFold]
    exact ih _ _ (labsFold_avail staff_data date avg st allLabs a rs hA)

theorem daysFold_nil (staff_data : StaffData) (avg : ℚ) (rs : RoundState) :
    daysFold staff_data avg [] rs = ([], rs) := rfl

theorem daysFold_cons (staff_data : StaffData) (avg : ℚ) (d : DayEntry)
    (rest : List DayEntry) (rs : RoundState) :
    daysFold staff_data avg (d :: rest) rs =
      (⟨d.date, (shiftsFold staff_data d.date avg allShifts d.assign rs).1⟩
          :: (daysFold staff_data avg rest
            (shiftsFold staff_data d.date avg allShifts d.assign rs).2).1,
        (daysFold staff_data avg rest
          (shiftsFold staff_data d.date avg allShifts d.assign rs).2).2) := rfl

attribute [irreducible] labStep labsFold shiftsFold daysFold try_maintain_lab_consistency

theorem daysFold_exclusive (staff_data : StaffData) (avg : ℚ) :
    ∀ (days : List DayEntry) (rs : RoundState),
    (∀ e ∈ days, ExclusiveDay e.assign) →
    ∀ e ∈ (daysFold staff_data avg days rs).1, ExclusiveDay e.assign := by
  intro days
  induction days with
  | nil =>
    intro rs _ e he
    rw [daysFold_nil] at he
    exact absurd he (List.not_mem_nil e)
  | cons d rest ih =>
    intro rs hall e he
    rw [daysFold_cons] at he
    rcases List.mem_cons.mp he with he | he
    · rw [he]
      show ExclusiveDay (shiftsFold staff_data d.date avg allShifts d.assign rs).1
      exact shiftsFold_exclusive staff_data d.date avg allShifts d.assign rs
        (hall d (List.mem_cons_self d rest))
    · exact ih (shiftsFold staff_data d.date avg allShifts d.assign rs).2
        (fun x hx => hall x (List.mem_cons_of_mem _ hx)) e he

theorem daysFold_avail (staff_data : StaffData) (avg : ℚ) :
    ∀ (days : List DayEntry) (rs : RoundState),
    (∀ e ∈ days, OccAvail staff_data e.date e.assign) →
    ∀ e ∈ (daysFold staff_data avg days rs).1, OccAvail staff_data e.date e.assign := by
  intro days
  induction days with
  | nil =>
    intro rs _ e he
    rw [daysFold_nil] at he
    exact absurd he (List.not_mem_nil e)
  | cons d rest ih =>
    intro rs hall e he
    rw [daysFold_cons] at he
    rcases List.mem_cons.mp he with he | he
    · rw [he]
      show OccAvail staff_data d.date (shiftsFold staff_data d.date avg allShifts d.assign rs).1
      exact shiftsFold_avail staff_data d.date avg allShifts d.assign rs
        (hall d (List.mem_cons_self d rest))
    · exact ih (shiftsFold staff_data d.date avg allShifts d.assign rs).2
        (fun x hx => hall x (List.mem_cons_of_mem _ hx)) e he

set_option maxHeartbeats 2000000 in
theorem reassign_exclusive (staff_data : StaffData) (schedule : List DayEntry)
    (work_hours : Ledger) (hall : ∀ e ∈ schedule, ExclusiveDay e.assign) :
    ∀ e ∈ (reassign_shifts staff_data schedule work_hours).2.1, ExclusiveDay e.assign := by
  unfold reassign_shifts
  dsimp only
  split
  · exact hall
  · split
    · exact hall
    · exact daysFold_exclusive staff_data _ schedule _ hall

set_option maxHeartbeats 2000000 in
theorem reassign_avail (staff_data : StaffData) (schedule : List DayEntry)
    (work_hours : Ledger)
    (hall : ∀ e ∈ schedule, OccAvail staff_data e.date e.assign) :
    ∀ e ∈ (reassign_shifts staff_data schedule work_hours).2.1,
      OccAvail staff_data e.date e.assign := by
  unfold reassign_shifts
  dsimp only
  split
  · exact hall
  · split
    · exact hall
    · exact daysFold_avail staff_data _ schedule _ hall

theorem balanceLoop_exclusive (staff_data : StaffData) :
    ∀ (n : ℕ) (schedule : List DayEntry) (led : Ledger),
    (∀ e ∈ schedule, ExclusiveDay e.assign) →
    ∀ e ∈ (balanceLoop staff_data n schedule led).1, ExclusiveDay e.assign := by
  intro n
  induction n with
  | zero =>
    intro schedule led hall
    exact hall
  | succ n ih =>
    intro schedule led hall
    rw [balanceLoop]
    split
    · exact hall
    · split
      · exact hall
      · dsimp only
        split
        · exact reassign_exclusive staff_data schedule led hall
        · split
          · exact reassign_exclusive staff_data schedule led hall
          · exact ih _ _ (reassign_exclusive staff_data schedule led hall)

theorem balanceLoop_avail (staff_data : StaffData) :
    ∀ (n : ℕ) (schedule : List DayEntry) (led : Ledger),
    (∀ e ∈ schedule, OccAvail staff_data e.date e.assign) →
    ∀ e ∈ (balanceLoop staff_data n schedule led).1, OccAvail staff_data e.date e.assign := by
  intro n
  induction n with
  | zero =>
    intro schedule led hall
    exact hall
  | succ n ih =>
    intro schedule led hall
    rw [balanceLoop]
    split
    · exact hall
    · split
      · exact hall
      · dsimp only
        split
        · exact reassign_avail staff_data schedule led hall
        · split
          · exact reassign_avail staff_data schedule led hall
          · exact ih _ _ (reassign_avail staff_data schedule led hall)

attribute [irreducible] runTier fill_remaining_slots assign_daily_labs adl_s1 adl_s2 adl_s3 adl_s4 adl_s5

theorem generate_initial_nil (staff_data : StaffData) (pick : List String → List String)
    (led : Ledger) : generate_initial_schedule staff_data pick [] led = ([], led) := rfl

theorem generate_initial_cons (staff_data : StaffData) (pick : List String → List String)
    (d : Date) (rest : List Date) (led : Ledger) :
    generate_initial_schedule staff_data pick (d :: rest) led =
      if d.weekday < 5 then
        (⟨d, (assign_daily_labs staff_data pick d led).1⟩
            :: (generate_initial_schedule staff_data pick rest
              (assign_daily_labs staff_data pick d led).2).1,
          (generate_initial_schedule staff_data pick rest
            (assign_daily_labs staff_data pick d led).2).2)
      else generate_initial_schedule staff_data pick rest led := rfl

theorem generate_initial_exclusive (staff_data : StaffData)
    (pick : List String → List String)
    (hnd : (staff_data.map Prod.fst).Nodup)
    (hpick : ∀ l : List String, (pick l).Perm l) :
    ∀ (dates : List Date) (led : Ledger),
    ∀ e ∈ (generate_initial_schedule staff_data pick dates led).1,
      ExclusiveDay e.assign := by
  intro dates
  induction dates with
  | nil =>
    intro led e he
    rw [generate_initial_nil] at he
    exact absurd he (List.not_mem_nil e)
  | cons d rest ih =>
    intro led e he
    rw [generate_initial_cons] at he
    split at he
    · rcases List.mem_cons.mp he with he | he
      · rw [he]
        show ExclusiveDay (assign_daily_labs staff_data pick d led).1
        rw [assign_daily_labs_eq]
        exact (adl_s5_invariant staff_data pick d led hnd hpick).1
      · exact ih (assign_daily_labs staff_data pick d led).2 e he
    · exact ih led e he

theorem generate_initial_avail (staff_data : StaffData)
    (pick : List String → List String)
    (hpick : ∀ l : List String, (pick l).Perm l) :
    ∀ (dates : List Date) (led : Ledger),
    ∀ e ∈ (generate_initial_schedule staff_data pick dates led).1,
      OccAvail staff_data e.date e.assign := by
  intro dates
  induction dates with
  | nil =>
    intro led e he
    rw [generate_initial_nil] at he
    exact absurd he (List.not_mem_nil e)
  | cons d rest ih =>
    intro led e he
    rw [generate_initial_cons] at he
    split at he
    · rcases List.mem_cons.mp he with he | he
      · rw [he]
        show OccAvail staff_data d (assign_daily_labs staff_data pick d led).1
        rw [assign_daily_labs_eq]
        exact adl_s5_avail staff_data pick d led hpick
      · exact ih (assign_daily_labs staff_data pick d led).2 e he
    · exact ih led e he

/-- C1: within each of the three shifts of every produced DailyAssignment —
after the initial daily fill and after every WorkloadBalancer round — the
set of non-empty lab-slot occupants has no duplicates: no staff member
occupies two lab slots in one shift.  Quantified over every staff table
with distinct names and every set-iteration order (any permutation). -/
theorem C1_slot_exclusivity (staff_data : StaffData)
    (pick : List String → List String) (dates : List Date)
    (hnd : (staff_data.map Prod.fst).Nodup)
    (hpick : ∀ l : List String, (pick l).Perm l) :
    ∀ e ∈ (generate_schedule staff_data pick dates).1, dayExclusive e.assign = true := by
  intro e he
  rw [dayExclusive_iff]
  exact balanceLoop_exclusive staff_data 5
    (generate_initial_schedule staff_data pick dates []).1
    (generate_initial_schedule staff_data pick dates []).2
    (generate_initial_exclusive staff_data pick hnd hpick dates []) e he

/-- C8: every occupied (date, shift, lab slot) of the final schedule — after
the initial fill, every balancer reassignment and every continuity
migration — has an occupant for whom the availability oracle reports
`canWork` true on that date and shift. -/
theorem C8_availability_faithfulness (staff_data : StaffData)
    (pick : List String → List String) (dates : List Date)
    (hpick : ∀ l : List String, (pick l).Perm l) :
    ∀ e ∈ (generate_schedule staff_data pick dates).1,
      dayAvailOk staff_data e.date e.assign = true := by
  intro e he
  rw [dayAvailOk_iff]
  exact balanceLoop_avail staff_data 5
    (generate_initial_schedule staff_data pick dates []).1
    (generate_initial_schedule staff_data pick dates []).2
    (generate_initial_avail staff_data pick hpick dates []) e he

/-- A one-staff table for the C1/C8 witnesses. -/
def sdW : StaffData := [plainStaff "A" [(2, [(9, 12)])]]

/-- C1 witness: the exclusivity theorem at a concrete one-staff, one-Monday
input with the identity iteration order. -/
theorem C1_witness :
    ((sdW.map Prod.fst).Nodup ∧ ∀ l : List String, (id l).Perm l)
    ∧ ∀ e ∈ (generate_schedule sdW id [dateMon]).1, dayExclusive e.assign = true :=
  ⟨⟨by with_unfolding_all decide, fun l => List.Perm.refl (id l)⟩,
   C1_slot_exclusivity sdW id [dateMon] (by with_unfolding_all decide)
     (fun l => List.Perm.refl (id l))⟩

/-- C8 witness: the availability-faithfulness theorem at the C10 scenario
(four staff, one Monday) with the identity iteration order. -/
theorem C8_witness :
    (∀ l : List String, (id l).Perm l)
    ∧ ∀ e ∈ (generate_schedule sdC10 id [dateMon]).1,
        dayAvailOk sdC10 e.date e.assign = true :=
  ⟨fun l => List.Perm.refl (id l),
   C8_availability_faithfulness sdC10 id [dateMon] (fun l => List.Perm.refl (id l))⟩
